import Mathlib

/-!
# Void-Vault: shallow embedding and verification

This file embeds the core of `src/main.rs` (the Void-Vault credential
derivation tool) in Lean 4 and settles the frozen claims about it.

Modelling conventions, used consistently below:

* Machine integers (`u8`, `u16`, `u32`, `u64`, `i32`, `i64`, `usize`) are
  embedded as `Nat`/`Int`; every wrapping operation takes an explicit
  `% 2^w`, and casts between widths are explicit `%`/`emod` operations.
* `f64` values are embedded as exact rationals (`ℚ`).  The one `f64`
  operation with no exact rational counterpart, `sqrt`, is embedded as
  the integer-square-root based `ratSqrt` below; every theorem below
  only ever evaluates it on perfect rational squares (1-dimensional
  engines), where `ratSqrt` and the IEEE `sqrt` agree exactly.
* Rust code that panics (index out of range, `% 0`) is embedded with
  `Option`: `none` is a panic.  Rust slice indexing that cannot fail on
  the well-formed states used by the claims is embedded with `List.getD`.
* `HashSet`/`HashMap` fields are embedded as lists in iteration order;
  the claims below never depend on that order.
-/

/-- 2^64, the modulus of all `u64` arithmetic in the source. -/
def U64 : Nat := 18446744073709551616

/-- `u64::MAX`, used by the source to map LCG draws into `[0,1]`. -/
def U64MAX : Nat := 18446744073709551615

/-- The linear congruential step
`rng.wrapping_mul(6364136223846793005).wrapping_add(1442695040888963407)`
used everywhere in the source for pseudo-random streams. -/
def lcg (s : Nat) : Nat :=
  (s * 6364136223846793005 + 1442695040888963407) % U64

/-- Truncation of a rational toward zero, the rational counterpart of
Rust's `as i64` cast applied to a finite `f64` (the source never
produces values outside the `i64` range in the places this is used;
Rust's `as` additionally saturates, which is irrelevant on those
inputs, so plain truncation is the faithful embedding). -/
def ratTrunc (q : ℚ) : Int := q.num.tdiv q.den

/-- Reinterpretation of an `i64` as a `u64` (two's complement), i.e.
`fixed as u64` in `ContinuousPosition::hash_position`. -/
def i64AsU64 (x : Int) : Nat := (x % (U64 : Int)).toNat

/-- Fuel-driven integer square root (`isqrt(n) = 2*isqrt(n/4)`,
corrected upward by one when possible); with fuel `≥ n` it computes
`⌊√n⌋`.  Structural recursion on the fuel keeps it kernel-computable. -/
def natSqrtAux : Nat → Nat → Nat
  | 0, n => n
  | fuel + 1, n =>
    if n < 2 then n
    else
      let r := 2 * natSqrtAux fuel (n / 4)
      if (r + 1) * (r + 1) ≤ n then r + 1 else r

/-- Kernel-computable `⌊√n⌋`. -/
def natSqrt (n : Nat) : Nat := natSqrtAux n n

/-- The embedding of `f64::sqrt`: square root of a rational, exact on
perfect rational squares (the only inputs on which the theorems below
evaluate it; it is applied to a sum of squares, so its argument is
never negative). -/
def ratSqrt (q : ℚ) : ℚ := mkRat (natSqrt q.num.toNat) (natSqrt q.den)

/-- `ContinuousPosition` (`src/main.rs:894`): the live cursor, a vector
of `f64` coordinates, embedded as rationals. -/
structure ContinuousPosition where
  coordinates : List ℚ
deriving Repr, DecidableEq

/-- `ContinuousPosition::new`: the origin of a `dimensions`-dimensional
space. -/
def ContinuousPosition.origin (dimensions : Nat) : ContinuousPosition :=
  ⟨List.replicate dimensions 0⟩

/-- `ContinuousPosition::hash_position` (`src/main.rs:907`): folds
`hash = hash*31 + ((coord*1000) as i64 as u64)` over the coordinates,
all in wrapping `u64` arithmetic. -/
def ContinuousPosition.hashPosition (p : ContinuousPosition) (seed : Nat) : Nat :=
  p.coordinates.foldl
    (fun h c => (h * 31 + i64AsU64 (ratTrunc (c * 1000))) % U64) seed

/-- `StructurePoint` (`src/main.rs:834`): a discrete point, a vector of
`i32` coordinates. -/
structure StructurePoint where
  coordinates : List Int
deriving Repr, DecidableEq

/-- `StructureSystem` (`src/main.rs:917`): the derivation engine.
`HashSet`/`HashMap` fields are lists in iteration order. -/
structure StructureSystem where
  dimensions : Nat
  activePoints : List StructurePoint
  charToPoint : List (Nat × StructurePoint)
  coordinateRange : Int
  originalSeed : Nat
  name : List Nat
  characterSet : List Nat
  currentPosition : ContinuousPosition
  structureBoundsMin : List ℚ
  structureBoundsMax : List ℚ
  baseStepSize : ℚ
  stepVariance : ℚ
  accumulatedPathMemory : Nat
deriving Repr, DecidableEq

namespace StructureSystem

/-- `StructureSystem::new` (`src/main.rs:942`). -/
def new (seed : Nat) (dimensions : Nat) (range : Int) : StructureSystem where
  dimensions := dimensions
  activePoints := []
  charToPoint := []
  coordinateRange := range
  originalSeed := seed
  name := [100, 101, 102, 97, 117, 108, 116]
  characterSet := []
  currentPosition := ContinuousPosition.origin dimensions
  structureBoundsMin := List.replicate dimensions (-30)
  structureBoundsMax := List.replicate dimensions 30
  baseStepSize := 3
  stepVariance := 2
  accumulatedPathMemory := 0

/-- `StructureSystem::reset_position` (`src/main.rs:959`): zeroes only
the path memory. -/
def resetPosition (e : StructureSystem) : StructureSystem :=
  { e with accumulatedPathMemory := 0 }

/-- `StructureSystem::full_reset` (`src/main.rs:963`): zeroes the
cursor and the path memory. -/
def fullReset (e : StructureSystem) : StructureSystem :=
  { e with currentPosition := ContinuousPosition.origin e.dimensions
           accumulatedPathMemory := 0 }

/-- `StructureSystem::generate_direction` (`src/main.rs:994`): one LCG
draw per axis mapped into `[-1,1]`, then normalized unless the
magnitude is zero. -/
def generateDirection (e : StructureSystem) (seed : Nat) : List ℚ :=
  let states : List Nat := (List.range e.dimensions).foldl
    (fun acc _ => acc ++ [lcg (acc.getLastD seed)]) []
  let direction : List ℚ :=
    states.map (fun s => ((s : ℚ) / (U64MAX : ℚ)) * 2 - 1)
  let magnitude : ℚ := ratSqrt ((direction.map (fun x => x * x)).sum)
  if 0 < magnitude then direction.map (fun v => v / magnitude) else direction

/-- `StructureSystem::generate_distance` (`src/main.rs:1015`):
`base_step_size + variance_draw * step_variance` with the draw in
`[-1,1]`. -/
def generateDistance (e : StructureSystem) (seed : Nat) : ℚ :=
  let s := lcg seed
  let variance : ℚ := ((s : ℚ) / (U64MAX : ℚ)) * 2 - 1
  e.baseStepSize + variance * e.stepVariance

/-- `StructureSystem::calculate_movement` (`src/main.rs:984`). -/
def calculateMovement (e : StructureSystem) (keycode : Nat) : List ℚ × ℚ :=
  let positionHash := e.currentPosition.hashPosition e.originalSeed
  let movementSeed := (e.originalSeed ^^^ positionHash) ^^^ keycode
  (e.generateDirection movementSeed, e.generateDistance movementSeed)

/-- One axis of the reflective clamp in
`StructureSystem::update_position` (`src/main.rs:1031`). -/
def reflectOnce (minB maxB c : ℚ) : ℚ :=
  if c < minB then minB + (minB - c)
  else if maxB < c then maxB - (c - maxB)
  else c

/-- `StructureSystem::update_position` (`src/main.rs:1025`): moves each
coordinate by `direction*distance` with one reflective clamp per axis,
then folds the truncated coordinate sum into the path memory
(`u8` wrapping add; the intermediate `i64` sum taken `as u8` equals the
exact integer sum `mod 256`, since `2^8` divides `2^64`). -/
def updatePosition (e : StructureSystem) (direction : List ℚ) (distance : ℚ) :
    StructureSystem :=
  let newPos : List ℚ := e.currentPosition.coordinates.mapIdx fun i c =>
    if i < e.dimensions then
      reflectOnce (e.structureBoundsMin.getD i 0) (e.structureBoundsMax.getD i 0)
        (c + direction.getD i 0 * distance)
    else c
  let coordSum : Int := (newPos.map ratTrunc).sum
  { e with currentPosition := ⟨newPos⟩
           accumulatedPathMemory :=
             (((e.accumulatedPathMemory : Int) + coordSum) % 256).toNat }

/-- `StructureSystem::apply_path_memory_to_character`
(`src/main.rs:1078`), including its (unreachable) empty-alphabet
guard. -/
def applyPathMemoryToCharacter (e : StructureSystem) (baseCharIndex : Nat) : Nat :=
  if e.characterSet = [] then 0
  else
    let finalIndex :=
      if e.accumulatedPathMemory % 2 = 0 then
        (baseCharIndex + 1) % e.characterSet.length
      else
        (baseCharIndex + e.characterSet.length - 1) % e.characterSet.length
    e.characterSet.getD finalIndex 0

/-- `apply_path_memory_to_character` with the empty-alphabet guard
removed, used to state that the guard is dead code inside
`generate_output_from_path`. -/
def applyPathMemoryNoGuard (e : StructureSystem) (baseCharIndex : Nat) : Nat :=
  let finalIndex :=
    if e.accumulatedPathMemory % 2 = 0 then
      (baseCharIndex + 1) % e.characterSet.length
    else
      (baseCharIndex + e.characterSet.length - 1) % e.characterSet.length
  e.characterSet.getD finalIndex 0

/-- The sampled point of iteration `i` of the loop in
`generate_output_from_path`: the pre-move position advanced by
`direction * distance * (i / total)` on each axis. -/
def samplePoint (e : StructureSystem) (start : ContinuousPosition)
    (direction : List ℚ) (distance : ℚ) (i total : Nat) : ContinuousPosition :=
  ⟨start.coordinates.mapIdx fun dim c =>
    if dim < e.dimensions then
      c + direction.getD dim 0 * distance * ((i : ℚ) / (total : ℚ))
    else c⟩

/-- `StructureSystem::generate_output_from_path` (`src/main.rs:1050`).
The first loop iteration evaluates `char_seed % self.character_set.len()`,
which panics in Rust when the alphabet is empty; the panic is `none`. -/
def generateOutputFromPath (e : StructureSystem) (start : ContinuousPosition)
    (direction : List ℚ) (distance : ℚ) (extraCharsCount : Nat) :
    Option (List Nat) :=
  if e.characterSet.length = 0 then none
  else
    let total := extraCharsCount + 1
    some <| (List.range total).map fun i =>
      let charSeed :=
        (e.samplePoint start direction distance i total).hashPosition e.originalSeed
      let baseCharIdx := charSeed % e.characterSet.length
      e.applyPathMemoryToCharacter baseCharIdx

/-- `StructureSystem::transform_char` (`src/main.rs:968`): computes the
movement, moves the cursor (mutating position and path memory), then
generates the output characters from the traversed path. -/
def transformChar (e : StructureSystem) (keycode : Nat) (extraCharsCount : Nat) :
    Option (List Nat × StructureSystem) :=
  let (direction, distance) := e.calculateMovement keycode
  let start := e.currentPosition
  let e' := e.updatePosition direction distance
  (e'.generateOutputFromPath start direction distance extraCharsCount).map
    fun out => (out, e')

/-- The fixed seed swapped in by `hash_domain` (`src/main.rs:1099`). -/
def DOMAIN_HASH_SEED : Nat := 0x444F4D41494E5F48

/-- The `for ch in domain.chars()` loop of `hash_domain`
(`src/main.rs:1105`): transform each character code with
`extra_count = 7`, append the output codes modulo 256 until 64 bytes
are collected, and stop early once they are. -/
def hashDomainChars : List Nat → StructureSystem → List Nat →
    Option (StructureSystem × List Nat)
  | [], st, acc => some (st, acc)
  | c :: cs, st, acc =>
    match st.transformChar c 7 with
    | none => none
    | some (out, st') =>
      let acc' := acc ++ (out.map (· % 256)).take (64 - acc.length)
      if 64 ≤ acc'.length then some (st', acc') else hashDomainChars cs st' acc'

/-- The `while hash_bytes.len() < 64` padding loop of `hash_domain`
(`src/main.rs:1124`), transforming the null code `0`.  Each successful
`transform` contributes 8 codes, so fuel 64 never runs out; exhausted
fuel returns `none`. -/
def hashDomainPad : Nat → StructureSystem → List Nat →
    Option (StructureSystem × List Nat)
  | 0, _, _ => none
  | fuel + 1, st, acc =>
    if 64 ≤ acc.length then some (st, acc)
    else
      match st.transformChar 0 7 with
      | none => none
      | some (out, st') =>
        hashDomainPad fuel st' (acc ++ (out.map (· % 256)).take (64 - acc.length))

/-- `StructureSystem::hash_domain` (`src/main.rs:1094`): save the
cursor, seed and path memory; swap in `DOMAIN_HASH_SEED` and do a full
reset; collect 64 bytes from the domain characters plus null padding;
restore the saved cursor, seed and path memory.  The domain string is
given as its list of character codes. -/
def hashDomain (e : StructureSystem) (domain : List Nat) :
    Option (List Nat × StructureSystem) :=
  let inner := ({ e with originalSeed := DOMAIN_HASH_SEED } : StructureSystem).fullReset
  (hashDomainChars domain inner []).bind fun p =>
    (hashDomainPad 64 p.1 p.2).map fun q =>
      (q.2.take 64,
       { q.1 with originalSeed := e.originalSeed,
                  currentPosition := e.currentPosition,
                  accumulatedPathMemory := e.accumulatedPathMemory })

end StructureSystem

namespace StructureSystem

/-- The fields of an engine that `transform_char` never writes:
everything but the cursor and the path memory. -/
def frame (e : StructureSystem) :=
  (e.dimensions, e.activePoints, e.charToPoint, e.coordinateRange,
   e.originalSeed, e.name, e.characterSet, e.structureBoundsMin,
   e.structureBoundsMax, e.baseStepSize, e.stepVariance)

theorem transformChar_none_iff (e : StructureSystem) (keycode n : Nat) :
    e.transformChar keycode n = none ↔ e.characterSet = [] := by
  rcases hm : e.calculateMovement keycode with ⟨direction, distance⟩
  have hcs : (e.updatePosition direction distance).characterSet
      = e.characterSet := rfl
  simp only [transformChar, hm, generateOutputFromPath]
  constructor
  · intro h
    by_contra hne
    rw [if_neg (by simpa [hcs, List.length_eq_zero] using hne)] at h
    exact Option.noConfusion h
  · intro h
    rw [if_pos (by simp [hcs, h])]
    rfl

theorem transformChar_some (e : StructureSystem) {keycode n : Nat}
    {out : List Nat} {e' : StructureSystem}
    (h : e.transformChar keycode n = some (out, e')) :
    e' = e.updatePosition (e.calculateMovement keycode).1
      (e.calculateMovement keycode).2 := by
  rcases hm : e.calculateMovement keycode with ⟨direction, distance⟩
  simp only [transformChar, hm] at h
  rcases hg : (e.updatePosition direction distance).generateOutputFromPath
      e.currentPosition direction distance n with _ | o
  · rw [hg] at h
    cases h
  · rw [hg] at h
    simp only [Option.map_some', Option.some.injEq, Prod.mk.injEq] at h
    rw [← h.2]

theorem transformChar_frame (e : StructureSystem) {keycode n : Nat}
    {out : List Nat} {e' : StructureSystem}
    (h : e.transformChar keycode n = some (out, e')) : e'.frame = e.frame := by
  rw [transformChar_some e h]
  rfl

theorem transformChar_out_length (e : StructureSystem) {keycode n : Nat}
    {out : List Nat} {e' : StructureSystem}
    (h : e.transformChar keycode n = some (out, e')) : out.length = n + 1 := by
  rcases hm : e.calculateMovement keycode with ⟨direction, distance⟩
  simp only [transformChar, hm, generateOutputFromPath] at h
  split at h
  · cases h
  · simp only [Option.map_some', Option.some.injEq, Prod.mk.injEq] at h
    rw [← h.1]
    simp

theorem transformChar_isSome (e : StructureSystem) (keycode n : Nat)
    (hcs : e.characterSet ≠ []) : (e.transformChar keycode n).isSome := by
  rcases h : e.transformChar keycode n with _ | p
  · exact absurd ((transformChar_none_iff e keycode n).1 h) hcs
  · rfl

theorem transformChar_characterSet (e : StructureSystem) {keycode n : Nat}
    {out : List Nat} {e' : StructureSystem}
    (h : e.transformChar keycode n = some (out, e')) :
    e'.characterSet = e.characterSet := by
  rw [transformChar_some e h]
  rfl

theorem hashDomainChars_isSome (cs : List Nat) (st : StructureSystem)
    (acc : List Nat) (hcs : st.characterSet ≠ []) :
    (hashDomainChars cs st acc).isSome := by
  induction cs generalizing st acc with
  | nil => rfl
  | cons c cs ih =>
    rcases ht : st.transformChar c 7 with _ | ⟨o, st₁⟩
    · have := transformChar_isSome st c 7 hcs
      rw [ht] at this
      cases this
    · have hcs₁ : st₁.characterSet ≠ [] := by
        rw [transformChar_characterSet st ht]
        exact hcs
      simp only [hashDomainChars, ht]
      split
      · rfl
      · exact ih st₁ _ hcs₁

theorem hashDomainPad_isSome (fuel : Nat) (st : StructureSystem)
    (acc : List Nat) (hcs : st.characterSet ≠ [])
    (hfuel : (64 - acc.length) + 8 ≤ 8 * fuel) :
    (hashDomainPad fuel st acc).isSome := by
  induction fuel generalizing st acc with
  | zero => omega
  | succ fuel ih =>
    by_cases hfull : 64 ≤ acc.length
    · simp only [hashDomainPad, if_pos hfull]
      rfl
    · rcases ht : st.transformChar 0 7 with _ | ⟨o, st₁⟩
      · have := transformChar_isSome st 0 7 hcs
        rw [ht] at this
        cases this
      · have hcs₁ : st₁.characterSet ≠ [] := by
          rw [transformChar_characterSet st ht]
          exact hcs
        simp only [hashDomainPad, if_neg hfull, ht]
        refine ih st₁ _ hcs₁ ?_
        have holen : o.length = 8 := transformChar_out_length st ht
        have hlen : (acc ++ (o.map (· % 256)).take (64 - acc.length)).length
            = acc.length + min (64 - acc.length) 8 := by
          simp [holen]
        rw [hlen]
        omega

theorem hashDomainPad_some_len {fuel : Nat} {st st' : StructureSystem}
    {acc acc' : List Nat}
    (h : hashDomainPad fuel st acc = some (st', acc')) : 64 ≤ acc'.length := by
  induction fuel generalizing st acc with
  | zero => cases h
  | succ fuel ih =>
    by_cases hfull : 64 ≤ acc.length
    · simp only [hashDomainPad, if_pos hfull, Option.some.injEq, Prod.mk.injEq] at h
      rw [← h.2]
      exact hfull
    · rcases ht : st.transformChar 0 7 with _ | ⟨o, st₁⟩
      · simp only [hashDomainPad, if_neg hfull, ht] at h
        exact Option.noConfusion h
      · simp only [hashDomainPad, if_neg hfull, ht] at h
        exact ih h

theorem hashDomainChars_frame {cs : List Nat} {st st' : StructureSystem}
    {acc acc' : List Nat}
    (h : hashDomainChars cs st acc = some (st', acc')) : st'.frame = st.frame := by
  induction cs generalizing st acc with
  | nil =>
    simp only [hashDomainChars, Option.some.injEq, Prod.mk.injEq] at h
    rw [← h.1]
  | cons c cs ih =>
    rcases ht : st.transformChar c 7 with _ | ⟨o, st₁⟩
    · simp only [hashDomainChars, ht] at h
      exact Option.noConfusion h
    · simp only [hashDomainChars, ht] at h
      have hf := transformChar_frame st ht
      split at h
      · simp only [Option.some.injEq, Prod.mk.injEq] at h
        rw [h.1] at hf
        exact hf
      · exact (ih h).trans hf

theorem hashDomainPad_frame {fuel : Nat} {st st' : StructureSystem}
    {acc acc' : List Nat}
    (h : hashDomainPad fuel st acc = some (st', acc')) : st'.frame = st.frame := by
  induction fuel generalizing st acc with
  | zero => cases h
  | succ fuel ih =>
    by_cases hfull : 64 ≤ acc.length
    · simp only [hashDomainPad, if_pos hfull, Option.some.injEq, Prod.mk.injEq] at h
      rw [← h.1]
    · rcases ht : st.transformChar 0 7 with _ | ⟨o, st₁⟩
      · simp only [hashDomainPad, if_neg hfull, ht] at h
        exact Option.noConfusion h
      · simp only [hashDomainPad, if_neg hfull, ht] at h
        exact (ih h).trans (transformChar_frame st ht)

theorem hashDomain_isSome (e : StructureSystem) (d : List Nat)
    (hcs : e.characterSet ≠ []) : (e.hashDomain d).isSome := by
  have hcsI : (({ e with originalSeed := DOMAIN_HASH_SEED } :
      StructureSystem).fullReset).characterSet ≠ [] := hcs
  rcases hch : hashDomainChars d
      (({ e with originalSeed := DOMAIN_HASH_SEED } :
        StructureSystem).fullReset) [] with _ | ⟨st₁, acc₁⟩
  · have := hashDomainChars_isSome d _ [] hcsI
    rw [hch] at this
    cases this
  · have hcs₁ : st₁.characterSet ≠ [] := by
      have hf := hashDomainChars_frame hch
      have hcseq : st₁.characterSet =
          (({ e with originalSeed := DOMAIN_HASH_SEED } :
            StructureSystem).fullReset).characterSet :=
        congrArg (fun t => t.2.2.2.2.2.2.1) hf
      rw [hcseq]
      exact hcsI
    rcases hp : hashDomainPad 64 st₁ acc₁ with _ | q
    · have := hashDomainPad_isSome 64 st₁ acc₁ hcs₁ (by omega)
      rw [hp] at this
      cases this
    · simp only [hashDomain, hch, hp, Option.some_bind, Option.map_some']
      rfl

/-- An engine with its `name` and `coordinate_range` erased: the two
fields `transform_char` and `hash_domain` never read.  Used to state
that domain hashing is independent of them. -/
def eraseNR (e : StructureSystem) : StructureSystem :=
  { e with name := [], coordinateRange := 0 }

theorem transformChar_eraseNR (e : StructureSystem) (keycode n : Nat) :
    (eraseNR e).transformChar keycode n =
      (e.transformChar keycode n).map fun p => (p.1, eraseNR p.2) := by
  rcases hm : e.calculateMovement keycode with ⟨d, dist⟩
  have hmov : (eraseNR e).calculateMovement keycode = (d, dist) := by
    rw [← hm]
    rfl
  simp only [transformChar, hm, hmov]
  have hgl : ((eraseNR e).updatePosition d dist).generateOutputFromPath
      (eraseNR e).currentPosition d dist n
      = (e.updatePosition d dist).generateOutputFromPath
        e.currentPosition d dist n := rfl
  rw [hgl]
  rcases hg : (e.updatePosition d dist).generateOutputFromPath
      e.currentPosition d dist n with _ | o
  · rfl
  · rfl

theorem hashDomainChars_eraseNR (cs : List Nat) (st : StructureSystem)
    (acc : List Nat) :
    hashDomainChars cs (eraseNR st) acc =
      (hashDomainChars cs st acc).map fun p => (eraseNR p.1, p.2) := by
  induction cs generalizing st acc with
  | nil => rfl
  | cons c cs ih =>
    rcases ht : st.transformChar c 7 with _ | ⟨o, st₁⟩
    · have ht' : (eraseNR st).transformChar c 7 = none := by
        rw [transformChar_eraseNR, ht]
        rfl
      simp only [hashDomainChars, ht, ht', Option.map_none']
    · have ht' : (eraseNR st).transformChar c 7 = some (o, eraseNR st₁) := by
        rw [transformChar_eraseNR, ht]
        rfl
      simp only [hashDomainChars, ht, ht']
      by_cases hfull : 64 ≤ (acc ++ (o.map (· % 256)).take (64 - acc.length)).length
      · rw [if_pos hfull, if_pos hfull]
        rfl
      · rw [if_neg hfull, if_neg hfull]
        exact ih st₁ _

theorem hashDomainPad_eraseNR (fuel : Nat) (st : StructureSystem)
    (acc : List Nat) :
    hashDomainPad fuel (eraseNR st) acc =
      (hashDomainPad fuel st acc).map fun p => (eraseNR p.1, p.2) := by
  induction fuel generalizing st acc with
  | zero => rfl
  | succ fuel ih =>
    by_cases hfull : 64 ≤ acc.length
    · simp [hashDomainPad, hfull]
    · rcases ht : st.transformChar 0 7 with _ | ⟨o, st₁⟩
      · have ht' : (eraseNR st).transformChar 0 7 = none := by
          rw [transformChar_eraseNR, ht]
          rfl
        simp only [hashDomainPad, if_neg hfull, ht, ht', Option.map_none']
      · have ht' : (eraseNR st).transformChar 0 7 = some (o, eraseNR st₁) := by
          rw [transformChar_eraseNR, ht]
          rfl
        simp only [hashDomainPad, if_neg hfull, ht, ht']
        exact ih st₁ _

theorem hashDomain_restores (e : StructureSystem) (d : List Nat)
    {h : List Nat} {r : StructureSystem}
    (hh : e.hashDomain d = some (h, r)) : r = e := by
  rcases hch : hashDomainChars d
      (({ e with originalSeed := DOMAIN_HASH_SEED } :
        StructureSystem).fullReset) [] with _ | ⟨st₁, acc₁⟩
  · simp only [hashDomain, hch, Option.none_bind] at hh
    exact Option.noConfusion hh
  · rcases hp : hashDomainPad 64 st₁ acc₁ with _ | ⟨st₂, acc₂⟩
    · simp only [hashDomain, hch, Option.some_bind, hp, Option.map_none'] at hh
      exact Option.noConfusion hh
    · simp only [hashDomain, hch, Option.some_bind, hp, Option.map_some',
        Option.some.injEq, Prod.mk.injEq] at hh
      have hf : st₂.frame =
          (({ e with originalSeed := DOMAIN_HASH_SEED } :
            StructureSystem).fullReset).frame :=
        (hashDomainPad_frame hp).trans (hashDomainChars_frame hch)
      rw [← hh.2]
      simp only [frame, fullReset, Prod.mk.injEq] at hf
      obtain ⟨hd, ha, hc, hr, _, hn, hcs, hbm, hbM, hbs, hsv⟩ := hf
      cases e
      simp only [StructureSystem.mk.injEq]
      exact ⟨hd, ha, hc, hr, trivial, hn, hcs, trivial, hbm, hbM, hbs, hsv, trivial⟩

theorem hashDomain_len (e : StructureSystem) (d : List Nat)
    {h : List Nat} {r : StructureSystem}
    (hh : e.hashDomain d = some (h, r)) : h.length = 64 := by
  rcases hch : hashDomainChars d
      (({ e with originalSeed := DOMAIN_HASH_SEED } :
        StructureSystem).fullReset) [] with _ | ⟨st₁, acc₁⟩
  · simp only [hashDomain, hch, Option.none_bind] at hh
    exact Option.noConfusion hh
  · rcases hp : hashDomainPad 64 st₁ acc₁ with _ | ⟨st₂, acc₂⟩
    · simp only [hashDomain, hch, Option.some_bind, hp, Option.map_none'] at hh
      exact Option.noConfusion hh
    · simp only [hashDomain, hch, Option.some_bind, hp, Option.map_some',
        Option.some.injEq, Prod.mk.injEq] at hh
      have hlen := hashDomainPad_some_len hp
      rw [← hh.1]
      simp [hlen]

theorem hashDomain_fst_congr (e1 e2 : StructureSystem) (d : List Nat)
    (heq : eraseNR (({ e1 with originalSeed := DOMAIN_HASH_SEED } :
        StructureSystem).fullReset)
      = eraseNR (({ e2 with originalSeed := DOMAIN_HASH_SEED } :
        StructureSystem).fullReset)) :
    (e1.hashDomain d).map Prod.fst = (e2.hashDomain d).map Prod.fst := by
  have hch := hashDomainChars_eraseNR d
    (({ e1 with originalSeed := DOMAIN_HASH_SEED } : StructureSystem).fullReset) []
  have hch2 := hashDomainChars_eraseNR d
    (({ e2 with originalSeed := DOMAIN_HASH_SEED } : StructureSystem).fullReset) []
  rw [heq, hch2] at hch
  rcases h1 : hashDomainChars d
      (({ e1 with originalSeed := DOMAIN_HASH_SEED } :
        StructureSystem).fullReset) [] with _ | ⟨st₁, acc₁⟩
  · rcases h2 : hashDomainChars d
        (({ e2 with originalSeed := DOMAIN_HASH_SEED } :
          StructureSystem).fullReset) [] with _ | ⟨st₁', acc₁'⟩
    · simp [hashDomain, h1, h2]
    · rw [h1, h2] at hch
      simp at hch
  · rcases h2 : hashDomainChars d
        (({ e2 with originalSeed := DOMAIN_HASH_SEED } :
          StructureSystem).fullReset) [] with _ | ⟨st₁', acc₁'⟩
    · rw [h1, h2] at hch
      simp at hch
    · rw [h1, h2] at hch
      simp only [Option.map_some', Option.some.injEq, Prod.mk.injEq] at hch
      obtain ⟨hst, hacc⟩ := hch
      have hpads : (hashDomainPad 64 st₁ acc₁).map (fun p => (eraseNR p.1, p.2))
          = (hashDomainPad 64 st₁' acc₁).map (fun p => (eraseNR p.1, p.2)) := by
        rw [← hashDomainPad_eraseNR 64 st₁ acc₁,
          ← hashDomainPad_eraseNR 64 st₁' acc₁, hst]
      rcases hp1 : hashDomainPad 64 st₁ acc₁ with _ | ⟨st₂, acc₂⟩
      · rcases hp2 : hashDomainPad 64 st₁' acc₁ with _ | ⟨st₂', acc₂'⟩
        · simp [hashDomain, h1, h2, hp1, hacc, hp2]
        · rw [hp1, hp2] at hpads
          simp at hpads
      · rcases hp2 : hashDomainPad 64 st₁' acc₁ with _ | ⟨st₂', acc₂'⟩
        · rw [hp1, hp2] at hpads
          simp at hpads
        · rw [hp1, hp2] at hpads
          simp only [Option.map_some', Option.some.injEq, Prod.mk.injEq] at hpads
          simp [hashDomain, h1, h2, hp1, hacc, hp2, hpads.2]

end StructureSystem

/-- **C3** — `hash_domain` is deterministic over the engine's geometry:
two engines with the same active points, anchor map, alphabet,
dimensionality, bounds and step parameters return the same 64 bytes
for a domain regardless of their live seed, cursor, or path memory;
and each call leaves the engine's cursor position, seed and
path-memory accumulator exactly as they were. -/
theorem hash_domain_deterministic_and_pure (e1 e2 : StructureSystem)
    (d : List Nat)
    (hdim : e1.dimensions = e2.dimensions)
    (hap : e1.activePoints = e2.activePoints)
    (hanch : e1.charToPoint = e2.charToPoint)
    (hcs : e1.characterSet = e2.characterSet)
    (hbmin : e1.structureBoundsMin = e2.structureBoundsMin)
    (hbmax : e1.structureBoundsMax = e2.structureBoundsMax)
    (hbs : e1.baseStepSize = e2.baseStepSize)
    (hsv : e1.stepVariance = e2.stepVariance)
    {h1 h2 : List Nat} {r1 r2 : StructureSystem}
    (hh1 : e1.hashDomain d = some (h1, r1))
    (hh2 : e2.hashDomain d = some (h2, r2)) :
    h1 = h2 ∧ h1.length = 64 ∧ r1 = e1 ∧ r2 = e2 := by
  have heq : StructureSystem.eraseNR
      (({ e1 with originalSeed := StructureSystem.DOMAIN_HASH_SEED } :
        StructureSystem).fullReset)
      = StructureSystem.eraseNR
        (({ e2 with originalSeed := StructureSystem.DOMAIN_HASH_SEED } :
          StructureSystem).fullReset) := by
    simp [StructureSystem.eraseNR, StructureSystem.fullReset, hdim, hap, hanch,
      hcs, hbmin, hbmax, hbs, hsv]
  have hfst := StructureSystem.hashDomain_fst_congr e1 e2 d heq
  rw [hh1, hh2] at hfst
  simp only [Option.map_some', Option.some.injEq] at hfst
  exact ⟨hfst, StructureSystem.hashDomain_len e1 d hh1,
    StructureSystem.hashDomain_restores e1 d hh1,
    StructureSystem.hashDomain_restores e2 d hh2⟩

/-- A concrete 1-dimensional engine for exercising `hash_domain`. -/
def E3 : StructureSystem :=
  { StructureSystem.new 7 1 50 with
      characterSet := List.range' 97 26, stepVariance := 0 }

/-- The 64 bytes `E3.hash_domain("a")` produces. -/
def E3Hash : List Nat :=
  [114, 103, 118, 107, 122, 111, 100, 115, 104, 119, 108, 97, 112, 101,
   116, 105, 122, 111, 100, 115, 104, 119, 108, 97, 112, 101, 116, 105,
   120, 109, 98, 113, 100, 111, 122, 107, 118, 103, 114, 99, 110, 99,
   114, 103, 118, 107, 122, 111, 102, 113, 98, 109, 120, 105, 116, 101,
   112, 101, 116, 105, 120, 109, 98, 113]

set_option maxRecDepth 100000 in
unseal Rat.add Rat.sub Rat.mul Rat.inv in
/-- Witness for C3 at the concrete engine `E3` and domain `"a"`. -/
theorem hash_domain_deterministic_and_pure_witness :
    E3.hashDomain [97] = some (E3Hash, E3) ∧
    (E3Hash = E3Hash ∧ E3Hash.length = 64 ∧ E3 = E3 ∧ E3 = E3) :=
  have hh : E3.hashDomain [97] = some (E3Hash, E3) := by decide
  ⟨hh, hash_domain_deterministic_and_pure E3 E3 [97] rfl rfl rfl rfl rfl rfl
    rfl rfl hh hh⟩

/-- `transform_char` with the empty-alphabet guard of
`apply_path_memory_to_character` removed, used to state that the guard
is unreachable: the `% alphabet_len` computed before every call to the
helper already panics when the alphabet is empty. -/
def StructureSystem.transformCharNoGuard (e : StructureSystem) (keycode : Nat)
    (extraCharsCount : Nat) : Option (List Nat × StructureSystem) :=
  let (direction, distance) := e.calculateMovement keycode
  let start := e.currentPosition
  let e' := e.updatePosition direction distance
  (if e'.characterSet.length = 0 then none
   else
    let total := extraCharsCount + 1
    some <| (List.range total).map fun i =>
      let charSeed :=
        (e'.samplePoint start direction distance i total).hashPosition e'.originalSeed
      let baseCharIdx := charSeed % e'.characterSet.length
      e'.applyPathMemoryNoGuard baseCharIdx).map fun out => (out, e')

/-- **C10** — `transform` panics (returns `none`) exactly when the
engine's alphabet is empty, because `generate_output_from_path`
computes the position hash modulo the alphabet length before anything
else; consequently the empty-alphabet guard inside
`apply_path_memory_to_character` is unreachable, and removing it does
not change `transform` at all. -/
theorem transform_panics_iff_empty_alphabet (e : StructureSystem)
    (keycode extraCharsCount : Nat) :
    (e.transformChar keycode extraCharsCount = none ↔ e.characterSet = []) ∧
    e.transformChar keycode extraCharsCount =
      e.transformCharNoGuard keycode extraCharsCount := by
  rcases hm : e.calculateMovement keycode with ⟨direction, distance⟩
  have hcs : (e.updatePosition direction distance).characterSet = e.characterSet := rfl
  simp only [StructureSystem.transformChar, StructureSystem.transformCharNoGuard,
    StructureSystem.generateOutputFromPath, hm]
  constructor
  · constructor
    · intro h
      by_contra hne
      rw [if_neg (by simpa [hcs, List.length_eq_zero] using hne)] at h
      simp at h
    · intro h
      rw [if_pos (by simp [hcs, h])]
      rfl
  · by_cases h : e.characterSet = []
    · rw [if_pos (by simp [hcs, h]), if_pos (by simp [hcs, h])]
    · rw [if_neg (by simpa [hcs, List.length_eq_zero] using h),
        if_neg (by simpa [hcs, List.length_eq_zero] using h)]
      simp only [Option.map_some', Option.some.injEq]
      refine Prod.ext ?_ rfl
      refine List.map_congr_left fun i _ => ?_
      simp only [StructureSystem.applyPathMemoryToCharacter,
        StructureSystem.applyPathMemoryNoGuard, hcs, if_neg h]

/-- Decode a UTF-8 byte sequence into its code points, `none` when the
bytes are not valid UTF-8 — the embedding of `String::from_utf8` /
`str::from_utf8` (which accept exactly the well-formed UTF-8
sequences: no overlong forms, no surrogates, max U+10FFFF). -/
def utf8DecodeCp : List Nat → Option (List Nat)
  | [] => some []
  | b :: rest =>
    if b < 0x80 then (utf8DecodeCp rest).map (b :: ·)
    else if 0xC2 ≤ b ∧ b ≤ 0xDF then
      match rest with
      | b1 :: r =>
        if 0x80 ≤ b1 ∧ b1 < 0xC0 then
          (utf8DecodeCp r).map (((b - 0xC0) * 64 + (b1 - 0x80)) :: ·)
        else none
      | [] => none
    else if 0xE0 ≤ b ∧ b ≤ 0xEF then
      match rest with
      | b1 :: b2 :: r =>
        if (if b = 0xE0 then 0xA0 ≤ b1 ∧ b1 < 0xC0
            else if b = 0xED then 0x80 ≤ b1 ∧ b1 < 0xA0
            else 0x80 ≤ b1 ∧ b1 < 0xC0) ∧ 0x80 ≤ b2 ∧ b2 < 0xC0 then
          (utf8DecodeCp r).map
            (((b - 0xE0) * 4096 + (b1 - 0x80) * 64 + (b2 - 0x80)) :: ·)
        else none
      | _ => none
    else if 0xF0 ≤ b ∧ b ≤ 0xF4 then
      match rest with
      | b1 :: b2 :: b3 :: r =>
        if (if b = 0xF0 then 0x90 ≤ b1 ∧ b1 < 0xC0
            else if b = 0xF4 then 0x80 ≤ b1 ∧ b1 < 0x90
            else 0x80 ≤ b1 ∧ b1 < 0xC0) ∧
            (0x80 ≤ b2 ∧ b2 < 0xC0) ∧ 0x80 ≤ b3 ∧ b3 < 0xC0 then
          (utf8DecodeCp r).map
            (((b - 0xF0) * 262144 + (b1 - 0x80) * 4096 +
              (b2 - 0x80) * 64 + (b3 - 0x80)) :: ·)
        else none
      | _ => none
    else none

/-- Whether a byte list is valid UTF-8 (`String::from_utf8` succeeds). -/
def utf8Valid (bs : List Nat) : Bool := (utf8DecodeCp bs).isSome

/-- One fixed-width field as written by the serializers.  The source
writes native-endian raw bytes; the embedding keeps each written field
as one token together with its byte width, which represents every byte
sequence the encoders can produce (reads in the decoders are
field-aligned on those sequences). -/
inductive FW where
  | u32 (v : Nat)
  | i32 (v : Int)
  | u64 (v : Nat)
  | f64 (v : ℚ)
  | u8 (v : Nat)
  | bytes (bs : List Nat)
deriving Repr, DecidableEq

/-- The byte width of a written field. -/
def FW.size : FW → Nat
  | u32 _ => 4
  | i32 _ => 4
  | u64 _ => 8
  | f64 _ => 8
  | u8 _ => 1
  | bytes bs => bs.length

/-- `bytes.len() - offset` of a remaining stream. -/
def byteLen (ts : List FW) : Nat := (ts.map FW.size).sum

/-- `StructurePoint::to_bytes` (`src/main.rs:860`): coordinate count as
`u32`, then each `i32` coordinate. -/
def StructurePoint.toBytes (p : StructurePoint) : List FW :=
  FW.u32 (p.coordinates.length % 4294967296) :: p.coordinates.map FW.i32

/-- Read `n` consecutive `i32` fields. -/
def readI32s : Nat → List FW → Option (List Int × List FW)
  | 0, ts => some ([], ts)
  | n + 1, FW.i32 v :: ts => (readI32s n ts).map fun p => (v :: p.1, p.2)
  | _ + 1, _ => none

/-- `StructurePoint::from_bytes` (`src/main.rs:869`): read the count,
then that many coordinates, returning the remaining stream. -/
def StructurePoint.fromBytes : List FW → Option (StructurePoint × List FW)
  | FW.u32 cnt :: ts => (readI32s cnt ts).map fun p => (⟨p.1⟩, p.2)
  | _ => none

/-- Read `n` consecutive `u32` fields. -/
def readU32s : Nat → List FW → Option (List Nat × List FW)
  | 0, ts => some ([], ts)
  | n + 1, FW.u32 v :: ts => (readU32s n ts).map fun p => (v :: p.1, p.2)
  | _ + 1, _ => none

/-- Read `n` consecutive serialized points. -/
def readPoints : Nat → List FW → Option (List StructurePoint × List FW)
  | 0, ts => some ([], ts)
  | n + 1, ts =>
    (StructurePoint.fromBytes ts).bind fun p =>
      (readPoints n p.2).map fun q => (p.1 :: q.1, q.2)

/-- Read `n` consecutive `(u32 key, point)` anchor-map entries. -/
def readKeyPoints : Nat → List FW → Option (List (Nat × StructurePoint) × List FW)
  | 0, ts => some ([], ts)
  | n + 1, FW.u32 k :: ts =>
    (StructurePoint.fromBytes ts).bind fun p =>
      (readKeyPoints n p.2).map fun q => ((k, p.1) :: q.1, q.2)
  | _ + 1, _ => none

/-- `StructureSystem::to_bytes` (`src/main.rs:1143`): dimensions,
coordinate range, seed, length-prefixed name bytes, length-prefixed
character set, length-prefixed active points, length-prefixed anchor
map, step size, step variance, path memory.  Note that neither the
cursor position nor the structure bounds are written. -/
def StructureSystem.toBytes (e : StructureSystem) : List FW :=
  [FW.u32 (e.dimensions % 4294967296), FW.i32 e.coordinateRange,
   FW.u64 e.originalSeed,
   FW.u32 (e.name.length % 4294967296), FW.bytes e.name,
   FW.u32 (e.characterSet.length % 4294967296)] ++
  e.characterSet.map FW.u32 ++
  [FW.u32 (e.activePoints.length % 4294967296)] ++
  (e.activePoints.map StructurePoint.toBytes).flatten ++
  [FW.u32 (e.charToPoint.length % 4294967296)] ++
  (e.charToPoint.map fun kp => FW.u32 kp.1 :: kp.2.toBytes).flatten ++
  [FW.f64 e.baseStepSize, FW.f64 e.stepVariance,
   FW.u8 e.accumulatedPathMemory]

/-- `StructureSystem::from_bytes` (`src/main.rs:1180`): parse the
fields written by `to_bytes`; a short tail for step size / variance /
path memory falls back to the defaults `3.0` / `2.0` / `0`; the cursor
is reset to the origin and the structure bounds to the default
`[-30, 30]` per axis — they were never serialized. -/
def StructureSystem.fromBytes (ts : List FW) : Option StructureSystem :=
  if byteLen ts < 16 then none
  else
    match ts with
    | FW.u32 dims :: FW.i32 range :: FW.u64 seed :: FW.u32 nameLen ::
        FW.bytes nameBs :: FW.u32 csLen :: ts₁ =>
      if nameBs.length ≠ nameLen then none
      else if ¬utf8Valid nameBs then none
      else
        (readU32s csLen ts₁).bind fun csp =>
        match csp.2 with
        | FW.u32 apLen :: ts₂ =>
          (readPoints apLen ts₂).bind fun app =>
          match app.2 with
          | FW.u32 mapLen :: ts₃ =>
            (readKeyPoints mapLen ts₃).bind fun kpp =>
            let tail := kpp.2
            let stepPart : Option (ℚ × ℚ × List FW) :=
              if 16 ≤ byteLen tail then
                match tail with
                | FW.f64 b :: FW.f64 v :: ts₄ => some (b, v, ts₄)
                | _ => none
              else some (3, 2, tail)
            stepPart.bind fun sp =>
            let memPart : Option Nat :=
              if 1 ≤ byteLen sp.2.2 then
                match sp.2.2 with
                | FW.u8 m :: _ => some m
                | _ => none
              else some 0
            memPart.map fun mem =>
              { dimensions := dims
                activePoints := app.1
                charToPoint := kpp.1
                coordinateRange := range
                originalSeed := seed
                name := nameBs
                characterSet := csp.1
                currentPosition := ContinuousPosition.origin dims
                structureBoundsMin := List.replicate dims (-30)
                structureBoundsMax := List.replicate dims 30
                baseStepSize := sp.1
                stepVariance := sp.2.1
                accumulatedPathMemory := mem }
          | _ => none
        | _ => none
    | _ => none

/-- `SavedPassword` (`src/main.rs:1669`): a credential profile.  The
strings are kept as their UTF-8 bytes. -/
structure SavedPassword where
  name : List Nat
  description : List Nat
  structureSystem : StructureSystem
  createdDate : Nat
  extraCharsCount : Nat
deriving Repr, DecidableEq

/-- `SavedPassword::to_bytes` (`src/main.rs:1678`). -/
def SavedPassword.toBytes (p : SavedPassword) : List FW :=
  [FW.u32 (p.name.length % 4294967296), FW.bytes p.name,
   FW.u32 (p.description.length % 4294967296), FW.bytes p.description,
   FW.u64 p.createdDate, FW.u32 (p.extraCharsCount % 4294967296),
   FW.u32 (byteLen p.structureSystem.toBytes % 4294967296)] ++
  p.structureSystem.toBytes

/-- Split a stream at an exact byte offset (the slicing
`&bytes[offset..offset + structure_len]`); `none` when the offset does
not fall on a field boundary (impossible on encoder output) or the
stream is too short. -/
def takeBytes : Nat → List FW → Option (List FW × List FW)
  | 0, ts => some ([], ts)
  | _ + 1, [] => none
  | n + 1, t :: ts =>
    if t.size ≤ n + 1 then
      (takeBytes (n + 1 - t.size) ts).map fun p => (t :: p.1, p.2)
    else none

/-- `SavedPassword::from_bytes` (`src/main.rs:1699`): length-prefixed
name and description (validated UTF-8), creation date, output-length
parameter (default 3 when the tail is short), then the length-prefixed
serialized engine. -/
def SavedPassword.fromBytes (ts : List FW) : Option SavedPassword :=
  match ts with
  | FW.u32 nameLen :: FW.bytes nameBs :: FW.u32 descLen ::
      FW.bytes descBs :: FW.u64 created :: ts₁ =>
    if nameBs.length ≠ nameLen then none
    else if ¬utf8Valid nameBs then none
    else if descBs.length ≠ descLen then none
    else if ¬utf8Valid descBs then none
    else
      let extraPart : Option (Nat × List FW) :=
        if 4 ≤ byteLen ts₁ then
          match ts₁ with
          | FW.u32 x :: ts₂ => some (x, ts₂)
          | _ => none
        else some (3, ts₁)
      extraPart.bind fun ep =>
      match ep.2 with
      | FW.u32 structLen :: ts₃ =>
        if byteLen ts₃ < structLen then none
        else
          (takeBytes structLen ts₃).bind fun tp =>
          (StructureSystem.fromBytes tp.1).map fun sys =>
            { name := nameBs
              description := descBs
              structureSystem := sys
              createdDate := created
              extraCharsCount := ep.1 }
      | _ => none
  | _ => none

/-- Feed an engine a sequence of `(code, extra_count)` keystrokes and
concatenate the transform outputs. -/
def runSequence (e : StructureSystem) : List (Nat × Nat) → Option (List Nat)
  | [] => some []
  | (c, n) :: rest =>
    match e.transformChar c n with
    | none => none
    | some (out, e') => (runSequence e' rest).map (out ++ ·)

/-- The all-zero 64-byte fingerprint: the table's empty-slot
sentinel. -/
def zeroHash64 : List Nat := List.replicate 64 0

/-- `DomainSlot` (`src/main.rs:573`): a 64-byte domain fingerprint, a
16-bit version counter, a 16-bit maximum-length policy and an 8-bit
character-class bitmask. -/
structure DomainSlot where
  domainHash : List Nat
  counter : Nat
  maxLength : Nat
  charTypes : Nat
deriving Repr, DecidableEq

/-- `DomainSlot::EMPTY` (`src/main.rs:581`). -/
def DomainSlot.EMPTY : DomainSlot := ⟨zeroHash64, 0, 0, 127⟩

/-- `DomainSlot::is_empty` (`src/main.rs:588`): all-zero fingerprint. -/
def DomainSlot.isEmpty (s : DomainSlot) : Bool := s.domainHash == zeroHash64

/-- `DomainTable` (`src/main.rs:593`): 512 slots. -/
structure DomainTable where
  slots : List DomainSlot
deriving Repr, DecidableEq

/-- `DomainTable::new` (`src/main.rs:598`): all slots empty. -/
def DomainTable.new : DomainTable := ⟨List.replicate 512 DomainSlot.EMPTY⟩

/-- `DomainTable::find_slot_by_hash` (`src/main.rs:605`): index of the
first non-empty slot holding the fingerprint. -/
def DomainTable.findSlotByHash (t : DomainTable) (h : List Nat) : Option Nat :=
  t.slots.findIdx? fun s => !s.isEmpty && s.domainHash == h

/-- The table-lookup part of `DomainTable::get_counter`
(`src/main.rs:615`), taking the already-computed fingerprint. -/
def DomainTable.getCounterH (t : DomainTable) (h : List Nat) : Option Nat :=
  (t.findSlotByHash h).map fun i => (t.slots.getD i DomainSlot.EMPTY).counter

/-- The table-update part of `DomainTable::set_counter`
(`src/main.rs:621`): update the existing slot, else fill the first
empty slot, else the capacity error (`none`). -/
def DomainTable.setCounterH (t : DomainTable) (h : List Nat) (counter : Nat) :
    Option DomainTable :=
  match t.findSlotByHash h with
  | some i =>
    some ⟨t.slots.set i { t.slots.getD i DomainSlot.EMPTY with counter := counter }⟩
  | none =>
    match t.slots.findIdx? (fun s => s.isEmpty) with
    | some i => some ⟨t.slots.set i ⟨h, counter, 0, 127⟩⟩
    | none => none

/-- The table-lookup part of `DomainTable::get_rules`
(`src/main.rs:663`). -/
def DomainTable.getRulesH (t : DomainTable) (h : List Nat) : Option (Nat × Nat) :=
  (t.findSlotByHash h).map fun i =>
    ((t.slots.getD i DomainSlot.EMPTY).maxLength,
     (t.slots.getD i DomainSlot.EMPTY).charTypes)

/-- The table-update part of `DomainTable::set_rules`
(`src/main.rs:675`): update the existing slot's policy fields, else
fill the first empty slot with counter 0, else the capacity error. -/
def DomainTable.setRulesH (t : DomainTable) (h : List Nat)
    (maxLength charTypes : Nat) : Option DomainTable :=
  match t.findSlotByHash h with
  | some i =>
    some ⟨t.slots.set i { t.slots.getD i DomainSlot.EMPTY with
      maxLength := maxLength, charTypes := charTypes }⟩
  | none =>
    match t.slots.findIdx? (fun s => s.isEmpty) with
    | some i => some ⟨t.slots.set i ⟨h, 0, maxLength, charTypes⟩⟩
    | none => none

/-- The number of occupied (non-empty) slots. -/
def DomainTable.occupiedCount (t : DomainTable) : Nat :=
  t.slots.countP fun s => !s.isEmpty

/-- The common update-or-allocate skeleton shared by `set_counter` and
`set_rules`, abstracted over the in-place update and the fresh slot. -/
def DomainTable.upsert (t : DomainTable) (h : List Nat)
    (upd : DomainSlot → DomainSlot) (fresh : DomainSlot) : Option DomainTable :=
  match t.findSlotByHash h with
  | some i => some ⟨t.slots.set i (upd (t.slots.getD i DomainSlot.EMPTY))⟩
  | none =>
    match t.slots.findIdx? (fun s => s.isEmpty) with
    | some i => some ⟨t.slots.set i fresh⟩
    | none => none

theorem setCounterH_eq_upsert (t : DomainTable) (h : List Nat) (c : Nat) :
    t.setCounterH h c
      = t.upsert h (fun s => { s with counter := c }) ⟨h, c, 0, 127⟩ := rfl

theorem setRulesH_eq_upsert (t : DomainTable) (h : List Nat) (ml ct : Nat) :
    t.setRulesH h ml ct
      = t.upsert h (fun s => { s with maxLength := ml, charTypes := ct })
          ⟨h, 0, ml, ct⟩ := rfl

theorem upsert_shape (filled : List DomainSlot) (m : Nat) (h : List Nat)
    (upd : DomainSlot → DomainSlot) (fresh : DomainSlot)
    (hfill : ∀ s ∈ filled, s.isEmpty = false)
    (hnot : ∀ s ∈ filled, s.domainHash ≠ h) (hm : 0 < m) :
    DomainTable.upsert ⟨filled ++ List.replicate m DomainSlot.EMPTY⟩ h upd fresh
      = some ⟨filled ++ fresh :: List.replicate (m - 1) DomainSlot.EMPTY⟩ := by
  have hfind : DomainTable.findSlotByHash
      ⟨filled ++ List.replicate m DomainSlot.EMPTY⟩ h = none := by
    rw [DomainTable.findSlotByHash, List.findIdx?_eq_none_iff]
    intro s hs
    rcases List.mem_append.1 hs with hsf | hse
    · simp [hnot s hsf]
    · have hsE : s = DomainSlot.EMPTY := List.eq_of_mem_replicate hse
      simp [hsE, DomainSlot.isEmpty, DomainSlot.EMPTY, zeroHash64]
  have hidx : (filled ++ List.replicate m DomainSlot.EMPTY).findIdx?
      (fun s => s.isEmpty) = some filled.length := by
    rw [List.findIdx?_append]
    have h1 : filled.findIdx? (fun s => s.isEmpty) = none :=
      List.findIdx?_eq_none_iff.2 hfill
    have h2 : (List.replicate m DomainSlot.EMPTY).findIdx?
        (fun s => s.isEmpty) = some 0 := by
      obtain ⟨m', rfl⟩ : ∃ m', m = m' + 1 := ⟨m - 1, by omega⟩
      simp [List.replicate_succ, List.findIdx?_cons, DomainSlot.isEmpty,
        DomainSlot.EMPTY]
    simp [h1, h2]
  rw [DomainTable.upsert, hfind, hidx]
  have hset : (filled ++ List.replicate m DomainSlot.EMPTY).set filled.length fresh
      = filled ++ fresh :: List.replicate (m - 1) DomainSlot.EMPTY := by
    rw [List.set_append]
    simp only [lt_irrefl, if_neg (lt_irrefl filled.length), Nat.sub_self]
    obtain ⟨m', rfl⟩ : ∃ m', m = m' + 1 := ⟨m - 1, by omega⟩
    simp [List.replicate_succ]
  show some (⟨(filled ++ List.replicate m DomainSlot.EMPTY).set filled.length
    fresh⟩ : DomainTable) = _
  rw [hset]

theorem upsert_full (filled : List DomainSlot) (h : List Nat)
    (upd : DomainSlot → DomainSlot) (fresh : DomainSlot)
    (hfill : ∀ s ∈ filled, s.isEmpty = false)
    (hnot : ∀ s ∈ filled, s.domainHash ≠ h) :
    DomainTable.upsert ⟨filled⟩ h upd fresh = none := by
  have hfind : DomainTable.findSlotByHash ⟨filled⟩ h = none := by
    rw [DomainTable.findSlotByHash, List.findIdx?_eq_none_iff]
    intro s hs
    simp [hnot s hs]
  have hidx : filled.findIdx? (fun s => s.isEmpty) = none := by
    rw [List.findIdx?_eq_none_iff]
    exact hfill
  rw [DomainTable.upsert, hfind, hidx]

theorem upsert_existing (t : DomainTable) (h : List Nat)
    (upd : DomainSlot → DomainSlot) (fresh : DomainSlot) (i : Nat)
    (hfind : t.findSlotByHash h = some i)
    (hupd : ∀ s, (upd s).domainHash = s.domainHash) :
    t.upsert h upd fresh
      = some ⟨t.slots.set i (upd (t.slots.getD i DomainSlot.EMPTY))⟩ ∧
    (⟨t.slots.set i (upd (t.slots.getD i DomainSlot.EMPTY))⟩ :
        DomainTable).slots.length = t.slots.length ∧
    (⟨t.slots.set i (upd (t.slots.getD i DomainSlot.EMPTY))⟩ :
        DomainTable).occupiedCount = t.occupiedCount := by
  obtain ⟨hlt, hpi, -⟩ := List.findIdx?_eq_some_iff_getElem.1 hfind
  refine ⟨by rw [DomainTable.upsert, hfind], List.length_set _ _ _, ?_⟩
  show (t.slots.set i _).countP _ = t.slots.countP _
  rw [List.countP_set _ _ _ _ hlt]
  have hgd : t.slots.getD i DomainSlot.EMPTY = t.slots[i] :=
    List.getD_eq_getElem t.slots DomainSlot.EMPTY hlt
  have hne : t.slots[i].isEmpty = false := by
    rcases hb : t.slots[i].isEmpty with _ | _
    · rfl
    · rw [hb] at hpi
      simp at hpi
  have hne' : (upd (t.slots.getD i DomainSlot.EMPTY)).isEmpty = false := by
    rw [DomainSlot.isEmpty, hupd, hgd]
    rw [DomainSlot.isEmpty] at hne
    exact hne
  rw [hgd] at hne'
  have hpos : 0 < t.slots.countP (fun s => !s.isEmpty) :=
    List.countP_pos_iff.2 ⟨t.slots[i], List.getElem_mem hlt, by simp [hne]⟩
  have hx : t.slots[i]?.getD DomainSlot.EMPTY = t.slots[i] := by
    rw [List.getElem?_eq_getElem hlt]
    rfl
  simp [hne, hne', hx]
  omega

/-- Apply a table operation for a list of domain fingerprints in
sequence, failing as soon as one application fails. -/
def insertAll (op : DomainTable → List Nat → Option DomainTable)
    (t : DomainTable) : List (List Nat) → Option DomainTable
  | [] => some t
  | h :: hs => (op t h).bind fun t' => insertAll op t' hs

theorem insertAll_shape (op : DomainTable → List Nat → Option DomainTable)
    (upd : DomainSlot → DomainSlot) (mkFresh : List Nat → DomainSlot)
    (hop : ∀ t h, op t h = t.upsert h upd (mkFresh h))
    (hfh : ∀ h, (mkFresh h).domainHash = h) :
    ∀ (hs : List (List Nat)) (filled : List DomainSlot) (m : Nat),
    (∀ s ∈ filled, s.isEmpty = false) →
    (∀ s ∈ filled, s.domainHash ∉ hs) →
    hs.Nodup → (∀ h ∈ hs, h ≠ zeroHash64) → hs.length ≤ m →
    insertAll op ⟨filled ++ List.replicate m DomainSlot.EMPTY⟩ hs
      = some ⟨(filled ++ hs.map mkFresh) ++
          List.replicate (m - hs.length) DomainSlot.EMPTY⟩ := by
  intro hs
  induction hs with
  | nil =>
    intro filled m _ _ _ _ _
    simp [insertAll]
  | cons h hs ih =>
    intro filled m hfill hnot hnd hnz hlen
    have hm : 0 < m := by
      simp only [List.length_cons] at hlen
      omega
    rw [insertAll, hop, upsert_shape filled m h upd (mkFresh h) hfill
      (fun s hsf => fun he => (hnot s hsf) (he ▸ List.mem_cons_self h hs)) hm,
      Option.some_bind]
    have hfreshNE : (mkFresh h).isEmpty = false := by
      rw [DomainSlot.isEmpty, hfh]
      exact beq_eq_false_iff_ne.2 (hnz h (List.mem_cons_self h hs))
    have hrw : filled ++ mkFresh h :: List.replicate (m - 1) DomainSlot.EMPTY
        = (filled ++ [mkFresh h]) ++ List.replicate (m - 1) DomainSlot.EMPTY := by
      simp
    rw [hrw, ih (filled ++ [mkFresh h]) (m - 1)
      (by
        intro s hsm
        rcases List.mem_append.1 hsm with hsf | hss
        · exact hfill s hsf
        · rw [List.mem_singleton.1 hss]
          exact hfreshNE)
      (by
        intro s hsm
        rcases List.mem_append.1 hsm with hsf | hss
        · exact fun hmem => (hnot s hsf) (List.mem_cons_of_mem h hmem)
        · rw [List.mem_singleton.1 hss, hfh]
          exact (List.nodup_cons.1 hnd).1)
      (List.nodup_cons.1 hnd).2
      (fun h' hh' => hnz h' (List.mem_cons_of_mem h hh'))
      (by
        simp only [List.length_cons] at hlen
        omega)]
    have hm' : m - 1 - hs.length = m - (hs.length + 1) := by omega
    simp [List.append_assoc, hm']

/-- **C7** — starting from the all-empty 512-slot table, `set_counter`
(or `set_rules`) for 512 domains with pairwise-distinct non-zero
fingerprints all succeed; a 513th distinct new domain then gets the
capacity error; and setting the counter or rules of a domain already
occupying a slot rewrites exactly that slot, leaving the slot count
and the number of occupied slots unchanged. -/
theorem domain_table_capacity (hs : List (List Nat)) (h513 : List Nat)
    (c ml ct : Nat) (hlen : hs.length = 512) (hnd : hs.Nodup)
    (hnz : ∀ h ∈ hs, h ≠ zeroHash64)
    (_h513nz : h513 ≠ zeroHash64) (h513new : h513 ∉ hs) :
    (∃ T : DomainTable,
      insertAll (fun t h => t.setCounterH h c) DomainTable.new hs = some T ∧
      T.setCounterH h513 c = none ∧ T.setRulesH h513 ml ct = none) ∧
    (∃ T : DomainTable,
      insertAll (fun t h => t.setRulesH h ml ct) DomainTable.new hs = some T ∧
      T.setCounterH h513 c = none ∧ T.setRulesH h513 ml ct = none) ∧
    (∀ (t : DomainTable) (h : List Nat) (i : Nat),
      t.findSlotByHash h = some i →
      ∃ t₁ t₂ : DomainTable,
        t.setCounterH h c = some t₁ ∧
        t₁.slots = t.slots.set i
          { t.slots.getD i DomainSlot.EMPTY with counter := c } ∧
        t₁.slots.length = t.slots.length ∧
        t₁.occupiedCount = t.occupiedCount ∧
        t.setRulesH h ml ct = some t₂ ∧
        t₂.slots = t.slots.set i
          { t.slots.getD i DomainSlot.EMPTY with
              maxLength := ml, charTypes := ct } ∧
        t₂.slots.length = t.slots.length ∧
        t₂.occupiedCount = t.occupiedCount) := by
  have hfull : ∀ (mkFresh : List Nat → DomainSlot)
      (upd : DomainSlot → DomainSlot),
      (∀ h, (mkFresh h).domainHash = h) →
      DomainTable.upsert ⟨hs.map mkFresh⟩ h513 upd (mkFresh h513) = none := by
    intro mkFresh upd hfh
    refine upsert_full (hs.map mkFresh) h513 upd (mkFresh h513) ?_ ?_
    · intro s hsm
      obtain ⟨h, hh, rfl⟩ := List.mem_map.1 hsm
      rw [DomainSlot.isEmpty, hfh]
      exact beq_eq_false_iff_ne.2 (hnz h hh)
    · intro s hsm
      obtain ⟨h, hh, rfl⟩ := List.mem_map.1 hsm
      rw [hfh]
      exact fun he => h513new (he ▸ hh)
  have hins : ∀ (op : DomainTable → List Nat → Option DomainTable)
      (upd : DomainSlot → DomainSlot) (mkFresh : List Nat → DomainSlot),
      (∀ t h, op t h = t.upsert h upd (mkFresh h)) →
      (∀ h, (mkFresh h).domainHash = h) →
      insertAll op DomainTable.new hs = some ⟨hs.map mkFresh⟩ := by
    intro op upd mkFresh hop hfh
    have hsh := insertAll_shape op upd mkFresh hop hfh hs [] 512
      (by simp) (by simp) hnd hnz (by omega)
    have h0 : DomainTable.new
        = ⟨[] ++ List.replicate 512 DomainSlot.EMPTY⟩ := rfl
    rw [h0, hsh]
    have h512 : (512 : Nat) - hs.length = 0 := by omega
    rw [List.nil_append, h512, List.replicate_zero, List.append_nil]
  refine ⟨⟨⟨hs.map fun h => ⟨h, c, 0, 127⟩⟩, ?_, ?_, ?_⟩,
    ⟨⟨hs.map fun h => ⟨h, 0, ml, ct⟩⟩, ?_, ?_, ?_⟩, ?_⟩
  · exact hins _ _ _ (fun t h => setCounterH_eq_upsert t h c) (fun h => rfl)
  · rw [setCounterH_eq_upsert]
    exact hfull _ _ (fun h => rfl)
  · rw [setRulesH_eq_upsert]
    exact upsert_full _ _ _ _
      (by
        intro s hsm
        obtain ⟨h, hh, rfl⟩ := List.mem_map.1 hsm
        exact beq_eq_false_iff_ne.2 (hnz h hh))
      (by
        intro s hsm
        obtain ⟨h, hh, rfl⟩ := List.mem_map.1 hsm
        exact fun he => h513new (he ▸ hh))
  · exact hins _ _ _ (fun t h => setRulesH_eq_upsert t h ml ct) (fun h => rfl)
  · rw [setCounterH_eq_upsert]
    exact upsert_full _ _ _ _
      (by
        intro s hsm
        obtain ⟨h, hh, rfl⟩ := List.mem_map.1 hsm
        exact beq_eq_false_iff_ne.2 (hnz h hh))
      (by
        intro s hsm
        obtain ⟨h, hh, rfl⟩ := List.mem_map.1 hsm
        exact fun he => h513new (he ▸ hh))
  · rw [setRulesH_eq_upsert]
    exact upsert_full _ _ _ _
      (by
        intro s hsm
        obtain ⟨h, hh, rfl⟩ := List.mem_map.1 hsm
        exact beq_eq_false_iff_ne.2 (hnz h hh))
      (by
        intro s hsm
        obtain ⟨h, hh, rfl⟩ := List.mem_map.1 hsm
        exact fun he => h513new (he ▸ hh))
  · intro t h i hfind
    obtain ⟨he1, hl1, ho1⟩ := upsert_existing t h
      (fun s => { s with counter := c }) ⟨h, c, 0, 127⟩ i hfind (fun s => rfl)
    obtain ⟨he2, hl2, ho2⟩ := upsert_existing t h
      (fun s => { s with maxLength := ml, charTypes := ct })
      ⟨h, 0, ml, ct⟩ i hfind (fun s => rfl)
    exact ⟨_, _, (setCounterH_eq_upsert t h c).trans he1, rfl, hl1, ho1,
      (setRulesH_eq_upsert t h ml ct).trans he2, rfl, hl2, ho2⟩

/-- 512 pairwise-distinct non-zero 64-byte fingerprints: the `k`-th is
all zeros except the last two bytes, which hold `k + 1` in
big-endian. -/
def witnessHashes : List (List Nat) :=
  (List.range 512).map fun k => List.replicate 62 0 ++ [(k + 1) / 256, (k + 1) % 256]

/-- A 513th fingerprint distinct from all of `witnessHashes`. -/
def witnessHash513 : List Nat := List.replicate 62 0 ++ [255, 255]

theorem witnessHash_tail_inj {a b a' b' : Nat}
    (h : List.replicate 62 (0 : Nat) ++ [a, b]
      = List.replicate 62 (0 : Nat) ++ [a', b']) : a = a' ∧ b = b' := by
  have := List.append_cancel_left h
  simp at this
  exact this

theorem witnessHashes_nodup : witnessHashes.Nodup := by
  refine List.Nodup.map ?_ (List.nodup_range 512)
  intro a b hab
  obtain ⟨h1, h2⟩ := witnessHash_tail_inj hab
  omega

theorem witnessHashes_nonzero : ∀ h ∈ witnessHashes, h ≠ zeroHash64 := by
  intro h hh
  obtain ⟨k, hk, rfl⟩ := List.mem_map.1 hh
  intro he
  have hz : zeroHash64 = List.replicate 62 (0 : Nat) ++ [0, 0] := by decide
  rw [hz] at he
  obtain ⟨h1, h2⟩ := witnessHash_tail_inj he
  omega

theorem witnessHash513_fresh : witnessHash513 ∉ witnessHashes := by
  intro hmem
  obtain ⟨k, hk, he⟩ := List.mem_map.1 hmem
  rw [witnessHash513] at he
  obtain ⟨h1, h2⟩ := witnessHash_tail_inj he
  rw [List.mem_range] at hk
  omega

/-- Witness for C7 at the concrete fingerprint family. -/
theorem domain_table_capacity_witness :
    (∃ T : DomainTable,
      insertAll (fun t h => t.setCounterH h 1) DomainTable.new witnessHashes
        = some T ∧
      T.setCounterH witnessHash513 1 = none ∧
      T.setRulesH witnessHash513 16 127 = none) ∧
    (∃ T : DomainTable,
      insertAll (fun t h => t.setRulesH h 16 127) DomainTable.new witnessHashes
        = some T ∧
      T.setCounterH witnessHash513 1 = none ∧
      T.setRulesH witnessHash513 16 127 = none) ∧
    (∀ (t : DomainTable) (h : List Nat) (i : Nat),
      t.findSlotByHash h = some i →
      ∃ t₁ t₂ : DomainTable,
        t.setCounterH h 1 = some t₁ ∧
        t₁.slots = t.slots.set i
          { t.slots.getD i DomainSlot.EMPTY with counter := 1 } ∧
        t₁.slots.length = t.slots.length ∧
        t₁.occupiedCount = t.occupiedCount ∧
        t.setRulesH h 16 127 = some t₂ ∧
        t₂.slots = t.slots.set i
          { t.slots.getD i DomainSlot.EMPTY with
              maxLength := 16, charTypes := 127 } ∧
        t₂.slots.length = t.slots.length ∧
        t₂.occupiedCount = t.occupiedCount) :=
  domain_table_capacity witnessHashes witnessHash513 1 16 127
    (by simp [witnessHashes]) witnessHashes_nodup witnessHashes_nonzero
    (by
      intro he
      have hz : zeroHash64 = List.replicate 62 (0 : Nat) ++ [0, 0] := by decide
      rw [witnessHash513, hz] at he
      obtain ⟨h1, h2⟩ := witnessHash_tail_inj he
      omega)
    witnessHash513_fresh

/-- `BinaryStorageManager::find_pattern` (`src/main.rs:138`): index of
the first occurrence of `needle` in `haystack`. -/
def findPattern (haystack needle : List Nat) : Option Nat :=
  if needle.length > haystack.length then none
  else (List.range (haystack.length - needle.length + 1)).find?
    fun i => needle.isPrefixOf (haystack.drop i)

/-- The five camouflage markers (section/start/end/name/description). -/
structure Markers where
  sectionMarker : List Nat
  startMarker : List Nat
  endMarker : List Nat
  nameMarker : List Nat
  descMarker : List Nat
deriving Repr, DecidableEq

/-- Rust `char::is_whitespace`: the Unicode `White_Space` code
points. -/
def isUnicodeWs (c : Nat) : Bool :=
  c = 0x9 ∨ c = 0xA ∨ c = 0xB ∨ c = 0xC ∨ c = 0xD ∨ c = 0x20 ∨
  c = 0x85 ∨ c = 0xA0 ∨ c = 0x1680 ∨ (0x2000 ≤ c ∧ c ≤ 0x200A) ∨
  c = 0x2028 ∨ c = 0x2029 ∨ c = 0x202F ∨ c = 0x205F ∨ c = 0x3000

/-- Rust `str::trim`: drop Unicode whitespace from both ends (on the
decoded code points). -/
def trimWs (cs : List Nat) : List Nat :=
  ((cs.dropWhile isUnicodeWs).reverse.dropWhile isUnicodeWs).reverse

/-- The body of the per-entry loop of
`BinaryStorageManager::load_all_passwords` (`src/main.rs:285`): from a
start-marker position, locate the name marker, the NUL-terminated
name, the end marker (rejecting empty or over-10-MiB payloads), the
description marker and the NUL-terminated description, validating
UTF-8; any violation is `none` (the entry is skipped, `continue`).
Returns `(trimmed name, payload, trimmed description)` with the
strings as code points. -/
def parseEntry (buffer : List Nat) (sectionStart : Nat) (m : Markers)
    (startPos : Nat) : Option (List Nat × List Nat × List Nat) :=
  let cur := startPos + m.startMarker.length
  (findPattern ((buffer.take sectionStart).drop cur) m.nameMarker).bind fun off =>
  let nameMarkerPos := cur + off + m.nameMarker.length
  (((buffer.take sectionStart).drop nameMarkerPos).findIdx?
      (fun b => b == 0)).bind fun nameOff =>
  let nameEndPos := nameMarkerPos + nameOff
  (utf8DecodeCp ((buffer.take nameEndPos).drop nameMarkerPos)).bind fun nameCps =>
  let dataStart := nameEndPos + 1
  (findPattern ((buffer.take sectionStart).drop dataStart) m.endMarker).bind
    fun endOff =>
  let endPosMarker := dataStart + endOff
  let dataSize := endPosMarker - dataStart
  if dataSize = 0 then none
  else if 10 * 1024 * 1024 < dataSize then none
  else
    let descMarkerStart := endPosMarker + m.endMarker.length
    (findPattern ((buffer.take sectionStart).drop descMarkerStart)
        m.descMarker).bind fun dOff =>
    let descMarkerPos := descMarkerStart + dOff + m.descMarker.length
    (((buffer.take sectionStart).drop descMarkerPos).findIdx?
        (fun b => b == 0)).bind fun descOff =>
    let descEndPos := descMarkerPos + descOff
    (utf8DecodeCp ((buffer.take descEndPos).drop descMarkerPos)).map fun descCps =>
    (trimWs nameCps, (buffer.take endPosMarker).drop dataStart, trimWs descCps)

/-- The start-marker scan loop of `load_all_passwords`
(`src/main.rs:274`), fuel-driven (the fuel never runs out for
non-empty markers, which always advance the scan position). -/
def scanLoop (buffer startMarker : List Nat) (sectionStart : Nat) :
    Nat → Nat → List Nat
  | 0, _ => []
  | fuel + 1, current =>
    if current < sectionStart then
      match findPattern ((buffer.take sectionStart).drop current) startMarker with
      | some off =>
        (current + off) ::
          scanLoop buffer startMarker sectionStart fuel
            (current + off + startMarker.length)
      | none => []
    else []

/-- `section_start_pos`: the file length minus the trailing section
marker. -/
def sectionStartOf (buffer : List Nat) (m : Markers) : Nat :=
  buffer.length - m.sectionMarker.length

/-- The start positions scanned by `load_all_passwords`, beginning at
the bounded 10-MiB search origin. -/
def scanStartPositions (buffer : List Nat) (m : Markers) : List Nat :=
  let sectionStart := sectionStartOf buffer m
  let searchBegin :=
    if 10 * 1024 * 1024 < sectionStart then sectionStart - 10 * 1024 * 1024 else 0
  scanLoop buffer m.startMarker sectionStart (sectionStart + 1) searchBegin

/-- `HashMap::insert`: replace the value under an existing key,
otherwise add the binding. -/
def mapInsert (cache : List (List Nat × List Nat × List Nat))
    (k : List Nat) (v : List Nat × List Nat) :
    List (List Nat × List Nat × List Nat) :=
  if cache.any (fun kv => kv.1 == k) then
    cache.map fun kv => if kv.1 == k then (k, v.1, v.2) else kv
  else cache ++ [(k, v.1, v.2)]

/-- The per-position loop of `load_all_passwords`: parse each entry,
inserting the parsed ones and skipping (`continue`) the malformed
ones. -/
def processPositions (buffer : List Nat) (sectionStart : Nat) (m : Markers) :
    List Nat → List (List Nat × List Nat × List Nat) →
    List (List Nat × List Nat × List Nat)
  | [], acc => acc
  | p :: ps, acc =>
    match parseEntry buffer sectionStart m p with
    | none => processPositions buffer sectionStart m ps acc
    | some e => processPositions buffer sectionStart m ps (mapInsert acc e.1 e.2)

/-- `BinaryStorageManager::load_all_passwords` (`src/main.rs:219`):
verify the trailing section marker (otherwise the cache stays empty),
scan backward-bounded for start markers, and process every found entry
(skipping malformed ones).  The result is the in-memory cache; the
function never fails. -/
def loadAllPasswords (buffer : List Nat) (m : Markers) :
    List (List Nat × List Nat × List Nat) :=
  if buffer.length < m.sectionMarker.length then []
  else if buffer.drop (buffer.length - m.sectionMarker.length)
      ≠ m.sectionMarker then []
  else
    processPositions buffer (sectionStartOf buffer m) m
      (scanStartPositions buffer m) []

theorem processPositions_eq_filterMap (buffer : List Nat) (sectionStart : Nat)
    (m : Markers) (ps : List Nat)
    (acc : List (List Nat × List Nat × List Nat)) :
    processPositions buffer sectionStart m ps acc
      = (ps.filterMap (parseEntry buffer sectionStart m)).foldl
          (fun a e => mapInsert a e.1 e.2) acc := by
  induction ps generalizing acc with
  | nil => rfl
  | cons p ps ih =>
    rcases hp : parseEntry buffer sectionStart m p with _ | e
    · simp [processPositions, hp, ih]
    · simp [processPositions, hp, ih]

/-- **C9** — a malformed entry is skipped individually and never
aborts the load: the cache `load_all_passwords` builds is exactly the
fold of the individually well-formed entries (`filterMap` of the
per-entry parser over the scanned start positions), and deleting a
malformed position from the scan list leaves the result unchanged —
the remaining well-formed entries are still loaded; the function
always returns a cache, never an error. -/
theorem load_skips_malformed_entries (buffer : List Nat) (m : Markers)
    (xs ys : List Nat) (p : Nat)
    (hlen : m.sectionMarker.length ≤ buffer.length)
    (hmark : buffer.drop (buffer.length - m.sectionMarker.length)
      = m.sectionMarker)
    (hscan : scanStartPositions buffer m = xs ++ p :: ys)
    (hbad : parseEntry buffer (sectionStartOf buffer m) m p = none) :
    loadAllPasswords buffer m
      = ((scanStartPositions buffer m).filterMap
          (parseEntry buffer (sectionStartOf buffer m) m)).foldl
          (fun a e => mapInsert a e.1 e.2) [] ∧
    loadAllPasswords buffer m
      = processPositions buffer (sectionStartOf buffer m) m (xs ++ ys) [] := by
  have hload : loadAllPasswords buffer m
      = processPositions buffer (sectionStartOf buffer m) m
          (scanStartPositions buffer m) [] := by
    rw [loadAllPasswords, if_neg (by omega), if_neg (by simp [hmark])]
  constructor
  · rw [hload, processPositions_eq_filterMap]
  · rw [hload, hscan, processPositions_eq_filterMap,
      processPositions_eq_filterMap]
    simp [List.filterMap_append, hbad]

/-- Concrete single-byte markers for the C9 witness. -/
def M9 : Markers := ⟨[254], [250], [252], [251], [253]⟩

/-- A storage region with three entries; the middle one has invalid
UTF-8 (byte `0xFF`) in its name. -/
def B9 : List Nat :=
  [250, 251, 65, 0, 7, 252, 253, 120, 0] ++
  [250, 251, 255, 0, 8, 252, 253, 121, 0] ++
  [250, 251, 66, 0, 9, 252, 253, 122, 0] ++ [254]

/-- Witness for C9: on `B9` the scan finds three entries, the middle
one fails UTF-8 validation, yet the load returns both well-formed
entries. -/
theorem load_skips_malformed_entries_witness :
    loadAllPasswords B9 M9
      = ((scanStartPositions B9 M9).filterMap
          (parseEntry B9 (sectionStartOf B9 M9) M9)).foldl
          (fun a e => mapInsert a e.1 e.2) [] ∧
    loadAllPasswords B9 M9
      = processPositions B9 (sectionStartOf B9 M9) M9 ([0] ++ [18]) [] :=
  load_skips_malformed_entries B9 M9 [0] [18] 9 (by decide) (by decide)
    (by decide) (by decide)

/-- `SessionState` (`src/main.rs:807`). -/
structure SessionState where
  activeDomainHash : Option (List Nat)
  savedCounter : Nat
  activeCounter : Nat
  isPreviewMode : Bool
  initialized : Bool
deriving Repr, DecidableEq

/-- `SessionState::empty` (`src/main.rs:816`). -/
def SessionState.empty : SessionState := ⟨none, 0, 0, false, false⟩

/-- The process-wide state the protocol commands act on: the session
singleton, the domain-table singleton, and the active profile's
engine. -/
structure ProtoState where
  session : SessionState
  table : DomainTable
  engine : StructureSystem
deriving Repr, DecidableEq

/-- The JSON payloads the protocol branches write back. -/
inductive Response where
  | activated (savedCounter activeCounter maxLength charTypes : Nat)
  | preview (savedCounter activeCounter maxLength charTypes : Nat)
  | committed (counter : Nat)
  | cancelled (counter : Nat)
  | counterResp (c : Option Nat)
  | error (msg : String)
deriving Repr, DecidableEq

/-- `DomainTable::get_counter` (`src/main.rs:615`): hash the domain
with (and through) the engine, then look the fingerprint up. -/
def DomainTable.getCounter (domain : List Nat) (t : DomainTable)
    (e : StructureSystem) : Option (Option Nat × StructureSystem) :=
  (e.hashDomain domain).map fun p => (t.getCounterH p.1, p.2)

/-- `DomainTable::set_counter` (`src/main.rs:621`): hash the domain,
then update or allocate (inner `none` = the capacity error). -/
def DomainTable.setCounter (domain : List Nat) (counter : Nat)
    (t : DomainTable) (e : StructureSystem) :
    Option (Option DomainTable × StructureSystem) :=
  (e.hashDomain domain).map fun p => (t.setCounterH p.1 counter, p.2)

/-- `DomainTable::get_rules` (`src/main.rs:663`). -/
def DomainTable.getRules (domain : List Nat) (t : DomainTable)
    (e : StructureSystem) : Option (Option (Nat × Nat) × StructureSystem) :=
  (e.hashDomain domain).map fun p => (t.getRulesH p.1, p.2)

/-- Ghost navigation (`src/main.rs:2992`): feed 8 fingerprint bytes
and the three counter-derived codes through `transform` with zero
extra output, discarding the output. -/
def ghostNavigate (e : StructureSystem) (domainHash : List Nat)
    (counter : Nat) : Option StructureSystem :=
  (((List.range 8).map fun i => domainHash.getD i 0) ++
      [counter, (counter * 7) % 4294967296, (counter + 13) % 4294967296]).foldlM
    (fun st c => (st.transformChar c 0).map Prod.snd) e

/-- The tail of the `ACTIVATE` branch after the counter is resolved:
read the rules, hash the domain into the session, full-reset, ghost
navigate, respond. -/
def activateRest (domain : List Nat) (counter : Nat) (t : DomainTable)
    (e : StructureSystem) : Option (ProtoState × Response) :=
  (DomainTable.getRules domain t e).bind fun r1 =>
  let rules := r1.1.getD (0, 127)
  (r1.2.hashDomain domain).bind fun h2 =>
  let session : SessionState := ⟨some h2.1, counter, counter, false, true⟩
  (ghostNavigate h2.2.fullReset h2.1 counter).map fun e' =>
  (⟨session, t, e'⟩, Response.activated counter counter rules.1 rules.2)

/-- The `ACTIVATE` branch of `run_json_io_mode` (`src/main.rs:2945`):
resolve (or create at 0) the domain's counter, store fingerprint and
counter in the session, full-reset and ghost-navigate. -/
def activate (domain : List Nat) (st : ProtoState) :
    Option (ProtoState × Response) :=
  if domain = [] then some (st, Response.error "Missing domain")
  else
    (DomainTable.getCounter domain st.table st.engine).bind fun g1 =>
    match g1.1 with
    | some counter => activateRest domain counter st.table g1.2
    | none =>
      (DomainTable.setCounter domain 0 st.table g1.2).bind fun s1 =>
      match s1.1 with
      | none =>
        some (⟨st.session, st.table, s1.2⟩,
          Response.error "Domain table full (512 slots)")
      | some t' => activateRest domain 0 t' s1.2

/-- The `ACTIVATE_PREVIEW` branch (`src/main.rs:3019`): like
`ACTIVATE` but with the saturating successor of the saved counter as
the active counter and the preview flag set; the saved counter is
left untouched. -/
def activatePreview (domain : List Nat) (st : ProtoState) :
    Option (ProtoState × Response) :=
  if domain = [] then some (st, Response.error "Missing domain")
  else
    (DomainTable.getCounter domain st.table st.engine).bind fun g1 =>
    let savedCounter := g1.1.getD 0
    let previewCounter := min (savedCounter + 1) 65535
    (DomainTable.getRules domain st.table g1.2).bind fun r1 =>
    let rules := r1.1.getD (0, 127)
    (r1.2.hashDomain domain).bind fun h2 =>
    let session : SessionState :=
      ⟨some h2.1, savedCounter, previewCounter, true, true⟩
    (ghostNavigate h2.2.fullReset h2.1 previewCounter).map fun e' =>
    (⟨session, st.table, e'⟩,
      Response.preview savedCounter previewCounter rules.1 rules.2)

/-- The `GET_COUNTER` branch (`src/main.rs:2926`): a pure read. -/
def getCounterCmd (domain : List Nat) (st : ProtoState) :
    Option (ProtoState × Response) :=
  if domain = [] then some (st, Response.error "Missing domain")
  else
    (DomainTable.getCounter domain st.table st.engine).map fun g1 =>
    (⟨st.session, st.table, g1.2⟩, Response.counterResp g1.1)

/-- The `COMMIT_INCREMENT` branch (`src/main.rs:3154`): only valid in
preview mode; persists the active counter and clears the preview
flag. -/
def commitIncrement (domain : List Nat) (st : ProtoState) :
    Option (ProtoState × Response) :=
  if domain = [] then some (st, Response.error "Missing domain")
  else if st.session.isPreviewMode then
    (DomainTable.setCounter domain st.session.activeCounter st.table
        st.engine).bind fun s1 =>
    match s1.1 with
    | none =>
      some (⟨st.session, st.table, s1.2⟩,
        Response.error "Domain table full (512 slots)")
    | some t' =>
      some (⟨{ st.session with
                 savedCounter := st.session.activeCounter
                 isPreviewMode := false }, t', s1.2⟩,
        Response.committed st.session.activeCounter)
  else some (st, Response.error "Not in preview mode")

/-- The `CANCEL_PREVIEW` branch (`src/main.rs:3206`): only valid in
preview mode; reverts the active counter to the saved one, clears the
preview flag, full-resets and re-runs ghost navigation at the saved
counter. -/
def cancelPreview (st : ProtoState) : Option (ProtoState × Response) :=
  if st.session.isPreviewMode then
    let saved := st.session.savedCounter
    let session : SessionState :=
      { st.session with activeCounter := saved
                        isPreviewMode := false }
    match st.session.activeDomainHash with
    | some dh =>
      (ghostNavigate st.engine.fullReset dh saved).map fun e' =>
        (⟨session, st.table, e'⟩, Response.cancelled saved)
    | none =>
      some (⟨session, st.table, st.engine.fullReset⟩, Response.cancelled saved)
  else some (st, Response.error "Not in preview mode")

/-- **C6** — `COMMIT_INCREMENT` and `CANCEL_PREVIEW` issued while the
preview flag is false are answered with an explicit error payload and
leave the whole protocol state — session, domain table and engine —
exactly unchanged. -/
theorem commit_cancel_require_preview (st : ProtoState) (domain : List Nat)
    (hprev : st.session.isPreviewMode = false) :
    commitIncrement domain st
      = some (st, Response.error
          (if domain = [] then "Missing domain" else "Not in preview mode")) ∧
    cancelPreview st = some (st, Response.error "Not in preview mode") := by
  constructor
  · rw [commitIncrement]
    by_cases hd : domain = [] <;> simp [hd, hprev]
  · rw [cancelPreview]
    simp [hprev]

/-- Witness for C6 at a concrete non-preview state. -/
theorem commit_cancel_require_preview_witness :
    commitIncrement [97] ⟨SessionState.empty, DomainTable.new, E3⟩
      = some (⟨SessionState.empty, DomainTable.new, E3⟩,
          Response.error "Not in preview mode") ∧
    cancelPreview ⟨SessionState.empty, DomainTable.new, E3⟩
      = some (⟨SessionState.empty, DomainTable.new, E3⟩,
          Response.error "Not in preview mode") :=
  commit_cancel_require_preview ⟨SessionState.empty, DomainTable.new, E3⟩
    [97] rfl

theorem getCounterH_setCounterH (t : DomainTable) {t' : DomainTable}
    (h : List Nat) (v : Nat) (hnz : h ≠ zeroHash64)
    (hset : t.setCounterH h v = some t') : t'.getCounterH h = some v := by
  have hpred : ∀ s : DomainSlot, s.domainHash = h →
      (!s.isEmpty && s.domainHash == h) = true := by
    intro s hsh
    simp [DomainSlot.isEmpty, hsh, hnz]
  rw [DomainTable.setCounterH] at hset
  rcases hf : t.findSlotByHash h with _ | i
  · rw [hf] at hset
    rcases he : t.slots.findIdx? (fun s => s.isEmpty) with _ | j
    · rw [he] at hset
      exact Option.noConfusion hset
    · rw [he] at hset
      simp only [Option.some.injEq] at hset
      subst hset
      obtain ⟨hjlt, hje, hjpre⟩ := List.findIdx?_eq_some_iff_getElem.1 he
      rw [DomainTable.findSlotByHash] at hf
      have hall := List.findIdx?_eq_none_iff.1 hf
      have hfind' : (t.slots.set j ⟨h, v, 0, 127⟩).findIdx?
          (fun s => !s.isEmpty && s.domainHash == h) = some j := by
        rw [List.findIdx?_eq_some_iff_getElem]
        have hjlt' : j < (t.slots.set j ⟨h, v, 0, 127⟩).length := by
          simpa using hjlt
        refine ⟨hjlt', ?_, ?_⟩
        · rw [List.getElem_set_self]
          exact hpred _ rfl
        · intro k hkj
          rw [List.getElem_set_ne (by omega)]
          exact fun hk => (by simp [hall (t.slots[k]) (List.getElem_mem _)] at hk)
      rw [DomainTable.getCounterH, DomainTable.findSlotByHash]
      show ((t.slots.set j ⟨h, v, 0, 127⟩).findIdx? _).map _ = _
      rw [hfind']
      simp only [Option.map_some', Option.some.injEq]
      rw [List.getD_eq_getElem _ _ (by simpa using hjlt), List.getElem_set_self]
  · rw [hf] at hset
    simp only [Option.some.injEq] at hset
    subst hset
    rw [DomainTable.findSlotByHash] at hf
    obtain ⟨hilt, hpi, hipre⟩ := List.findIdx?_eq_some_iff_getElem.1 hf
    have hhash : t.slots[i].domainHash = h := by
      have hpi' := hpi
      rw [Bool.and_eq_true] at hpi'
      exact beq_iff_eq.1 hpi'.2
    have hgd : t.slots.getD i DomainSlot.EMPTY = t.slots[i] :=
      List.getD_eq_getElem _ _ hilt
    have hfind' : (t.slots.set i
        { t.slots.getD i DomainSlot.EMPTY with counter := v }).findIdx?
        (fun s => !s.isEmpty && s.domainHash == h) = some i := by
      rw [List.findIdx?_eq_some_iff_getElem]
      have hilt' : i < (t.slots.set i
          { t.slots.getD i DomainSlot.EMPTY with counter := v }).length := by
        simpa using hilt
      refine ⟨hilt', ?_, ?_⟩
      · rw [List.getElem_set_self, hgd]
        exact hpred _ hhash
      · intro k hki
        rw [List.getElem_set_ne (by omega)]
        exact hipre k hki
    rw [DomainTable.getCounterH, DomainTable.findSlotByHash]
    show ((t.slots.set i
      { t.slots.getD i DomainSlot.EMPTY with counter := v }).findIdx? _).map _ = _
    rw [hfind']
    simp only [Option.map_some', Option.some.injEq]
    rw [List.getD_eq_getElem _ _ (by simpa using hilt), List.getElem_set_self]

theorem setCounterH_isSome_of_found (t : DomainTable) (h : List Nat)
    (v i : Nat) (hf : t.findSlotByHash h = some i) :
    t.setCounterH h v = some ⟨t.slots.set i
      { t.slots.getD i DomainSlot.EMPTY with counter := v }⟩ := by
  rw [DomainTable.setCounterH, hf]

theorem getCounterH_found {t : DomainTable} {h : List Nat} {c : Nat}
    (hg : t.getCounterH h = some c) : ∃ i, t.findSlotByHash h = some i := by
  rw [DomainTable.getCounterH] at hg
  rcases hf : t.findSlotByHash h with _ | i
  · rw [hf] at hg
    exact Option.noConfusion hg
  · exact ⟨i, rfl⟩

namespace StructureSystem

theorem hashDomain_fst_congr_frame (e1 e2 : StructureSystem)
    (hf : e1.frame = e2.frame) (d : List Nat) :
    (e1.hashDomain d).map Prod.fst = (e2.hashDomain d).map Prod.fst := by
  apply hashDomain_fst_congr
  simp only [frame, Prod.mk.injEq] at hf
  obtain ⟨hd, ha, hc, hr, hs, hn, hcs, hbm, hbM, hbs, hsv⟩ := hf
  simp [eraseNR, fullReset, hd, ha, hc, hr, hn, hcs, hbm, hbM, hbs, hsv]

theorem hashDomainPad_none_of_empty (fuel : Nat) (st : StructureSystem)
    (acc : List Nat) (hcs : st.characterSet = []) (hlen : acc.length < 64) :
    hashDomainPad fuel st acc = none := by
  cases fuel with
  | zero => rfl
  | succ fuel =>
    rw [hashDomainPad, if_neg (by omega), (transformChar_none_iff st 0 7).2 hcs]

theorem hashDomain_some_charset (e : StructureSystem) (d : List Nat)
    {x : List Nat × StructureSystem} (hh : e.hashDomain d = some x) :
    e.characterSet ≠ [] := by
  intro hempty
  rw [hashDomain] at hh
  rcases d with _ | ⟨c, cs⟩
  · simp only [hashDomainChars, Option.some_bind] at hh
    rcases hp : hashDomainPad 64
        (({ e with originalSeed := DOMAIN_HASH_SEED } :
          StructureSystem).fullReset) [] with _ | q
    · rw [hp] at hh
      exact Option.noConfusion hh
    · rw [hashDomainPad_none_of_empty 64
        (({ e with originalSeed := DOMAIN_HASH_SEED } :
          StructureSystem).fullReset) [] hempty (by simp)] at hp
      exact Option.noConfusion hp
  · have hcnone : (({ e with originalSeed := DOMAIN_HASH_SEED } :
        StructureSystem).fullReset).transformChar c 7 = none :=
      (transformChar_none_iff _ c 7).2 hempty
    simp only [hashDomainChars, hcnone, Option.none_bind] at hh
    exact Option.noConfusion hh

theorem hashDomain_some_of_charset (e : StructureSystem) (d : List Nat)
    (hcs : e.characterSet ≠ []) : ∃ h, e.hashDomain d = some (h, e) := by
  have hsome := hashDomain_isSome e d hcs
  rcases hh : e.hashDomain d with _ | ⟨h, e'⟩
  · rw [hh] at hsome
    simp at hsome
  · exact ⟨h, by rw [hashDomain_restores e d hh]⟩

end StructureSystem

theorem ghostNavigate_frame {e e' : StructureSystem} {dh : List Nat}
    {c : Nat} (h : ghostNavigate e dh c = some e') : e'.frame = e.frame := by
  rw [ghostNavigate] at h
  generalize hcodes : ((List.range 8).map fun i => dh.getD i 0) ++
    [c, (c * 7) % 4294967296, (c + 13) % 4294967296] = codes at h
  clear hcodes
  induction codes generalizing e with
  | nil =>
    simp only [List.foldlM_nil, Option.pure_def, Option.some.injEq] at h
    rw [h]
  | cons cd cds ih =>
    rw [List.foldlM_cons] at h
    rcases ht : e.transformChar cd 0 with _ | ⟨o, e₁⟩
    · rw [ht] at h
      exact Option.noConfusion h
    · rw [ht] at h
      simp only [Option.map_some', Option.bind_eq_bind, Option.some_bind] at h
      exact (ih h).trans (StructureSystem.transformChar_frame e ht)

theorem ghostNavigate_isSome (e : StructureSystem) (dh : List Nat) (c : Nat)
    (hcs : e.characterSet ≠ []) : (ghostNavigate e dh c).isSome := by
  rw [ghostNavigate]
  generalize ((List.range 8).map fun i => dh.getD i 0) ++
    [c, (c * 7) % 4294967296, (c + 13) % 4294967296] = codes
  induction codes generalizing e with
  | nil => rfl
  | cons cd cds ih =>
    simp only [List.foldlM_cons, Option.bind_eq_bind]
    rcases ht : e.transformChar cd 0 with _ | ⟨o, e₁⟩
    · have hts := StructureSystem.transformChar_isSome e cd 0 hcs
      rw [ht] at hts
      simp at hts
    · simp only [Option.map_some', Option.some_bind]
      have hcs₁ : e₁.characterSet ≠ [] := by
        rw [StructureSystem.transformChar_characterSet e ht]
        exact hcs
      exact ih e₁ hcs₁

theorem frame_characterSet {e1 e2 : StructureSystem}
    (hf : e1.frame = e2.frame) : e1.characterSet = e2.characterSet :=
  congrArg (fun t => t.2.2.2.2.2.2.1) hf

theorem hashDomain_some_frame (e₀ e : StructureSystem) (d dh : List Nat)
    (hf : e.frame = e₀.frame)
    (hh₀ : (e₀.hashDomain d).map Prod.fst = some dh) :
    e.hashDomain d = some (dh, e) := by
  have hcs₀ : e₀.characterSet ≠ [] := by
    rcases hx : e₀.hashDomain d with _ | x
    · rw [hx] at hh₀
      simp at hh₀
    · exact StructureSystem.hashDomain_some_charset e₀ d hx
  have hcs : e.characterSet ≠ [] := by
    rw [frame_characterSet hf]
    exact hcs₀
  obtain ⟨dh', hh⟩ := StructureSystem.hashDomain_some_of_charset e d hcs
  have hcg := StructureSystem.hashDomain_fst_congr_frame e e₀ hf d
  rw [hh, hh₀] at hcg
  simp only [Option.map_some', Option.some.injEq] at hcg
  rw [hh, hcg]

theorem fullReset_frame (e : StructureSystem) : (e.fullReset).frame = e.frame :=
  rfl

set_option maxRecDepth 4000 in
theorem activateRest_spec (d : List Nat) (cnt : Nat) (t : DomainTable)
    (e : StructureSystem) (st₁ : ProtoState) (c ml ct : Nat) (dh : List Nat)
    (hh : e.hashDomain d = some (dh, e))
    (hrest : activateRest d cnt t e = some (st₁, Response.activated c c ml ct)) :
    c = cnt ∧ st₁.session = ⟨some dh, cnt, cnt, false, true⟩ ∧
      st₁.table = t ∧ st₁.engine.frame = e.frame := by
  rw [activateRest] at hrest
  simp only [DomainTable.getRules, hh, Option.map_some', Option.some_bind] at hrest
  rcases hg : ghostNavigate e.fullReset dh cnt with _ | e'
  · rw [hg] at hrest
    simp at hrest
  · rw [hg] at hrest
    simp only [Option.map_some', Option.some.injEq, Prod.mk.injEq,
      Response.activated.injEq] at hrest
    obtain ⟨hst, hc, -, -, -⟩ := hrest
    have hfr := (ghostNavigate_frame hg).trans (fullReset_frame e)
    rw [← hst]
    exact ⟨hc.symm, by rw [hc], rfl, hfr⟩

theorem activate_success (st₀ : ProtoState) (d : List Nat) (c ml ct : Nat)
    (st₁ : ProtoState)
    (hact : activate d st₀ = some (st₁, Response.activated c c ml ct))
    (hnz : ∀ h, (st₀.engine.hashDomain d).map Prod.fst = some h
      → h ≠ zeroHash64) :
    d ≠ [] ∧ ∃ dh, (st₀.engine.hashDomain d).map Prod.fst = some dh ∧
      st₁.session = ⟨some dh, c, c, false, true⟩ ∧
      st₁.table.getCounterH dh = some c ∧
      st₁.engine.frame = st₀.engine.frame := by
  rw [activate] at hact
  by_cases hd : d = []
  · rw [if_pos hd] at hact
    simp at hact
  · rw [if_neg hd] at hact
    refine ⟨hd, ?_⟩
    rcases hh : st₀.engine.hashDomain d with _ | ⟨dh, e₁⟩
    · simp [DomainTable.getCounter, hh] at hact
    · have he₁ : e₁ = st₀.engine :=
        StructureSystem.hashDomain_restores _ _ hh
      subst he₁
      have hdh_nz : dh ≠ zeroHash64 := hnz dh (by rw [hh]; rfl)
      simp only [DomainTable.getCounter, hh, Option.map_some',
        Option.some_bind] at hact
      rcases hc0 : st₀.table.getCounterH dh with _ | c₀
      · rw [hc0] at hact
        simp only [DomainTable.setCounter, hh, Option.map_some',
          Option.some_bind] at hact
        rcases hset : st₀.table.setCounterH dh 0 with _ | t'
        · rw [hset] at hact
          simp at hact
        · rw [hset] at hact
          obtain ⟨hc, hsess, htab, hfr⟩ := activateRest_spec d 0 t'
            st₀.engine st₁ c ml ct dh hh hact
          subst hc
          exact ⟨dh, rfl, hsess,
            htab ▸ getCounterH_setCounterH st₀.table dh 0 hdh_nz hset, hfr⟩
      · rw [hc0] at hact
        obtain ⟨hc, hsess, htab, hfr⟩ := activateRest_spec d c₀ st₀.table
          st₀.engine st₁ c ml ct dh hh hact
        subst hc
        exact ⟨dh, rfl, hsess, htab ▸ hc0, hfr⟩

/-- Modelled from the words of claim C1: "the point at fraction
`i/(extra_count+1)` along the straight segment from the pre-move
cursor position to the post-move cursor position". -/
def claimSegmentPoint (pre post : ContinuousPosition) (i total : Nat) :
    ContinuousPosition :=
  ⟨(pre.coordinates.zip post.coordinates).map fun ab =>
    ab.1 + (ab.2 - ab.1) * ((i : ℚ) / (total : ℚ))⟩

/-- Modelled from the words of claim C1: hash the sampled point with
the seed, reduce modulo the alphabet size to a base index, shift by
`+1` if the (post-move) path memory is even or `-1` modulo the
alphabet size if odd, and look up the alphabet character there.  The
engine argument is the post-move engine. -/
def claimCharAt (e : StructureSystem) (p : ContinuousPosition) : Nat :=
  let base := p.hashPosition e.originalSeed % e.characterSet.length
  let idx :=
    if e.accumulatedPathMemory % 2 = 0 then (base + 1) % e.characterSet.length
    else (base + e.characterSet.length - 1) % e.characterSet.length
  e.characterSet.getD idx 0

/-- The amended sampling geometry: the point obtained by advancing the
pre-move position on each axis by fraction `i/total` of the movement
vector `direction * distance` (this lies on the segment to the
post-move position exactly when no axis reflected). -/
def claimRayPoint (pre : ContinuousPosition) (direction : List ℚ)
    (distance : ℚ) (i total : Nat) : ContinuousPosition :=
  ⟨pre.coordinates.mapIdx fun dim c =>
    c + direction.getD dim 0 * distance * ((i : ℚ) / (total : ℚ))⟩

/-- A concrete 1-dimensional engine whose first move reflects off the
lower bound, used to separate the code's sampling ray from the claim's
pre-to-post segment. -/
def E1 : StructureSystem :=
  { StructureSystem.new 1 1 50 with
      characterSet := List.range' 97 26,
      structureBoundsMin := [0], structureBoundsMax := [1],
      stepVariance := 0 }

/-- The concrete result of `E1.transform_char(5, 1)`. -/
def E1Result : List Nat × StructureSystem := (E1.transformChar 5 1).getD ([], E1)

set_option maxRecDepth 8000 in
unseal Rat.add Rat.sub Rat.mul Rat.inv in
/-- **C1, counterexample** — on `E1` the move (direction `-1`,
distance `3`, candidate `-3`) reflects off the lower bound `0` to the
post-move position `3`; the code samples at `0` and `-1.5` (along the
unreflected ray), while the claim's segment from `0` to `3` samples at
`0` and `1.5`: the emitted characters are `[101, 99]`, not the
claim's `[101, 119]`. -/
theorem transform_segment_sampling_false :
    E1.transformChar 5 1 = some E1Result ∧
    E1Result.1 ≠ (List.range 2).map (fun i =>
      claimCharAt E1Result.2
        (claimSegmentPoint E1.currentPosition E1Result.2.currentPosition i 2)) := by
  constructor
  · rfl
  · decide

/-- **C1, amended** — for every engine with a non-empty alphabet (and a
cursor vector of the engine's dimensionality), `transform(code, n)`
returns exactly `n+1` output codes; the `i`-th is obtained by sampling
the point at fraction `i/(n+1)` along the straight ray from the
pre-move position in the moved direction scaled by the drawn distance
(which coincides with the segment to the post-move position whenever
no reflective clamp fired), hashing it with the seed, reducing modulo
the alphabet size, shifting by `+1`/`-1` per post-move path-memory
parity, and looking up the alphabet character. -/
theorem transform_output_characterization (e : StructureSystem)
    (keycode n : Nat) (direction : List ℚ) (distance : ℚ)
    (hmd : e.calculateMovement keycode = (direction, distance))
    (hcs : e.characterSet ≠ [])
    (hlen : e.currentPosition.coordinates.length = e.dimensions) :
    e.transformChar keycode n =
      some ((List.range (n + 1)).map (fun i =>
        claimCharAt (e.updatePosition direction distance)
          (claimRayPoint e.currentPosition direction distance i (n + 1))),
        e.updatePosition direction distance) ∧
    ((List.range (n + 1)).map fun i =>
        claimCharAt (e.updatePosition direction distance)
          (claimRayPoint e.currentPosition direction distance i (n + 1))).length
      = n + 1 := by
  have hcs' : (e.updatePosition direction distance).characterSet
      = e.characterSet := rfl
  refine ⟨?_, by simp⟩
  simp only [StructureSystem.transformChar, hmd,
    StructureSystem.generateOutputFromPath]
  rw [if_neg (by simpa [hcs', List.length_eq_zero] using hcs)]
  simp only [Option.map_some', Option.some.injEq]
  refine Prod.ext ?_ rfl
  refine List.map_congr_left fun i _ => ?_
  have hsp : (e.updatePosition direction distance).samplePoint
      e.currentPosition direction distance i (n + 1)
      = claimRayPoint e.currentPosition direction distance i (n + 1) := by
    unfold StructureSystem.samplePoint claimRayPoint
    congr 1
    refine List.ext_getElem? fun j => ?_
    rw [List.getElem?_mapIdx, List.getElem?_mapIdx]
    rcases hj : e.currentPosition.coordinates[j]? with _ | v
    · rfl
    · have hjlen : j < e.currentPosition.coordinates.length := by
        by_contra hc
        push_neg at hc
        simp [List.getElem?_eq_none hc] at hj
      have hjd : j < e.dimensions := hlen ▸ hjlen
      have hdim : (e.updatePosition direction distance).dimensions = e.dimensions := rfl
      simp [hdim, hjd]
  rw [hsp]
  simp only [claimCharAt, StructureSystem.applyPathMemoryToCharacter,
    hcs', if_neg hcs]

/-- A 1-dimensional engine with non-default structure bounds `[0, 1]`,
as `generate_structure` would compute for a structure hugging the
origin; used to exhibit the serialization round-trip divergence. -/
def EC2 : StructureSystem :=
  { StructureSystem.new 7 1 50 with
      characterSet := List.range' 97 26,
      structureBoundsMin := [0], structureBoundsMax := [1],
      stepVariance := 0 }

/-- A credential profile owning `EC2`. -/
def P2 : SavedPassword :=
  { name := [112], description := [100], structureSystem := EC2,
    createdDate := 0, extraCharsCount := 1 }

/-- The decode of `P2`'s encoding. -/
def P2dec : SavedPassword := (SavedPassword.fromBytes P2.toBytes).getD P2

set_option maxRecDepth 100000 in
unseal Rat.add Rat.sub Rat.mul Rat.inv in
/-- **C2** — encode-then-decode is *not* output-preserving: decoding
resets `structure_bounds` to the default `[-30, 30]` (they are never
serialized and never recomputed on load), so the decoded profile `P2dec`
— although it starts from the same cursor position and path memory as
`P2` — produces a different `transform` output sequence on the same
inputs: the original reflects off its `[0, 1]` bounds where the decoded
engine does not. -/
theorem profile_roundtrip_changes_outputs :
    SavedPassword.fromBytes P2.toBytes = some P2dec ∧
    P2dec.structureSystem.currentPosition = P2.structureSystem.currentPosition ∧
    P2dec.structureSystem.accumulatedPathMemory
      = P2.structureSystem.accumulatedPathMemory ∧
    P2dec.structureSystem.structureBoundsMin = [-30] ∧
    P2.structureSystem.structureBoundsMin = [0] ∧
    runSequence P2dec.structureSystem [(5, 1), (5, 1)]
      ≠ runSequence P2.structureSystem [(5, 1), (5, 1)] := by
  refine ⟨by rfl, by decide, by decide, by decide, by decide, by decide⟩

/-- `size_of::<DomainSlot>()`: the struct holds `64 + 2 + 2 + 1 = 69`
bytes of fields, but its alignment is 2 (it contains `u16` fields) and
Rust struct sizes are always a multiple of the alignment, so one
padding byte is added. -/
def domainSlotFieldBytes : Nat := 64 + 2 + 2 + 1

/-- The alignment of `DomainSlot` (largest field alignment: `u16`). -/
def domainSlotAlign : Nat := 2

/-- `size_of::<DomainSlot>()`: the field bytes rounded up to the
alignment. -/
def domainSlotSize : Nat :=
  domainSlotAlign * ((domainSlotFieldBytes + domainSlotAlign - 1) / domainSlotAlign)

/-- `size_of::<DomainTable>()`: 512 slots. -/
def domainTableSize : Nat := 512 * domainSlotSize

/-- The all-zero domain-table blob appended after the table marker at
bootstrap (`src/main.rs:194`): `vec![0u8; size_of::<DomainTable>()]`. -/
def emptyDomainTableBlob : List Nat := List.replicate domainTableSize 0

/-- **C8, counterexample** — the persisted domain-table blob is *not*
`512 × 69` bytes: `size_of::<DomainSlot>()` is 70 (69 field bytes plus
one alignment padding byte), so the blob is `35840` bytes, not
`35328`. -/
theorem domain_table_blob_not_512_times_69 :
    emptyDomainTableBlob.length = 35840 ∧ (35840 : Nat) ≠ 512 * 69 := by
  constructor
  · unfold emptyDomainTableBlob
    rw [List.length_replicate]
    decide
  · decide

/-- **C8, amended** — the blob consists of 512 slot records of
`size_of::<DomainSlot>()` = 70 bytes each (69 bytes of fields — a
64-byte fingerprint, a 16-bit counter, a 16-bit maximum-length policy
and an 8-bit character-class bitmask — plus 1 alignment padding byte),
i.e. the blob written and read back is `512 × 70 = 35840` bytes
long. -/
theorem domain_table_blob_layout :
    domainSlotFieldBytes = 64 + 2 + 2 + 1 ∧ domainSlotSize = 70 ∧
    domainTableSize = 512 * 70 ∧ emptyDomainTableBlob.length = 512 * 70 := by
  refine ⟨rfl, by decide, by decide, ?_⟩
  unfold emptyDomainTableBlob
  rw [List.length_replicate]
  decide

set_option maxRecDepth 8000 in
unseal Rat.add Rat.sub Rat.mul Rat.inv in
/-- Witness for the amended C1 theorem at the concrete engine `E1`. -/
theorem transform_output_characterization_witness :
    E1.transformChar 5 1 =
      some ((List.range 2).map (fun i =>
        claimCharAt (E1.updatePosition [-1] 3)
          (claimRayPoint E1.currentPosition [-1] 3 i 2)),
        E1.updatePosition [-1] 3) ∧
    ((List.range 2).map fun i =>
        claimCharAt (E1.updatePosition [-1] 3)
          (claimRayPoint E1.currentPosition [-1] 3 i 2)).length = 2 :=
  transform_output_characterization E1 5 1 [-1] 3 (by decide) (by decide) rfl

/-- C4 helper: the candidate coordinate of axis `i` before clamping. -/
def candidateCoord (e : StructureSystem) (direction : List ℚ) (distance : ℚ)
    (i : Nat) : ℚ :=
  e.currentPosition.coordinates.getD i 0 + direction.getD i 0 * distance

/-- **C4** — For every axis `i`, a candidate below the axis minimum is
stored as `min + (min - candidate)`, a candidate above the maximum as
`max - (candidate - max)`, in-range candidates are stored unchanged,
and the reflection is applied exactly once: a candidate more than one
bound-width past a bound is left outside the bounds. -/
theorem update_position_reflects_once (e : StructureSystem)
    (direction : List ℚ) (distance : ℚ) (i : Nat) (hi : i < e.dimensions)
    (hil : i < e.currentPosition.coordinates.length)
    (hb : e.structureBoundsMin.getD i 0 ≤ e.structureBoundsMax.getD i 0) :
    let minB := e.structureBoundsMin.getD i 0
    let maxB := e.structureBoundsMax.getD i 0
    let c := candidateCoord e direction distance i
    let r := (e.updatePosition direction distance).currentPosition.coordinates.getD i 0
    (c < minB → r = minB + (minB - c)) ∧
    (maxB < c → r = maxB - (c - maxB)) ∧
    (minB ≤ c → c ≤ maxB → r = c) ∧
    (c < minB - (maxB - minB) → maxB < r) ∧
    (maxB + (maxB - minB) < c → r < minB) := by
  intro minB maxB c r
  have hr : r = StructureSystem.reflectOnce minB maxB c := by
    show (e.updatePosition direction distance).currentPosition.coordinates.getD i 0 = _
    simp only [StructureSystem.updatePosition]
    rw [List.getD_eq_getElem?_getD, List.getElem?_mapIdx,
      List.getElem?_eq_getElem hil]
    simp only [Option.map_some, Option.getD_some, hi, if_pos]
    show _ = StructureSystem.reflectOnce (e.structureBoundsMin.getD i 0)
      (e.structureBoundsMax.getD i 0) (candidateCoord e direction distance i)
    simp only [candidateCoord,
      List.getD_eq_getElem e.currentPosition.coordinates 0 hil]
    rfl
  rw [hr]
  unfold StructureSystem.reflectOnce
  refine ⟨?_, ?_, ?_, ?_, ?_⟩ <;> intros <;>
    split <;> first | rfl | linarith | (split <;> first | rfl | linarith)

/-- Witness for C4 at a concrete engine: one axis reflecting below the
minimum bound. -/
theorem update_position_reflects_once_witness :
    let e := { StructureSystem.new 1 1 50 with
                 currentPosition := ⟨[0]⟩, structureBoundsMin := [-2],
                 structureBoundsMax := [2] }
    (candidateCoord e [-1] 3 0 < -2 →
      (e.updatePosition [-1] 3).currentPosition.coordinates.getD 0 0 =
        -2 + (-2 - candidateCoord e [-1] 3 0)) := by
  intro e
  have h := update_position_reflects_once e [-1] 3 0 (by decide)
    (by simp [e, StructureSystem.new]) (by norm_num [e, StructureSystem.new])
  exact h.1

/-- **C5, amended** — after `ACTIVATE(d)` establishes saved counter `c`
(for a domain whose fingerprint is not the all-zero sentinel),
`ACTIVATE_PREVIEW(d)` yields an active counter equal to
`min (c + 1) 65535` — the `u16` *saturating* successor, not always
`c + 1` — while the stored (saved) counter for `d` remains `c`; a
subsequent `COMMIT_INCREMENT` persists the previewed counter so that
`GET_COUNTER(d)` returns `min (c + 1) 65535`; issuing `CANCEL_PREVIEW`
instead restores the active counter to `c` and `GET_COUNTER(d)` still
returns `c`. -/
theorem preview_lifecycle (st₀ : ProtoState) (d : List Nat) (c ml ct : Nat)
    (st₁ : ProtoState)
    (hact : activate d st₀ = some (st₁, Response.activated c c ml ct))
    (hnz : ∀ h, (st₀.engine.hashDomain d).map Prod.fst = some h
      → h ≠ zeroHash64) :
    ∃ dh st₂ ml' ct' st₃ st₄,
      (st₀.engine.hashDomain d).map Prod.fst = some dh ∧
      activatePreview d st₁
        = some (st₂, Response.preview c (min (c + 1) 65535) ml' ct') ∧
      st₂.session = ⟨some dh, c, min (c + 1) 65535, true, true⟩ ∧
      st₂.table.getCounterH dh = some c ∧
      commitIncrement d st₂
        = some (st₃, Response.committed (min (c + 1) 65535)) ∧
      st₃.session.savedCounter = min (c + 1) 65535 ∧
      st₃.session.isPreviewMode = false ∧
      st₃.table.getCounterH dh = some (min (c + 1) 65535) ∧
      getCounterCmd d st₃
        = some (st₃, Response.counterResp (some (min (c + 1) 65535))) ∧
      cancelPreview st₂ = some (st₄, Response.cancelled c) ∧
      st₄.session.activeCounter = c ∧ st₄.session.isPreviewMode = false ∧
      st₄.table = st₂.table ∧
      getCounterCmd d st₄ = some (st₄, Response.counterResp (some c)) := by
  obtain ⟨hd, dh, hdh, hsess₁, hcnt₁, hfr₁⟩ :=
    activate_success st₀ d c ml ct st₁ hact hnz
  have hdh_nz : dh ≠ zeroHash64 := hnz dh hdh
  have hcs₀ : st₀.engine.characterSet ≠ [] := by
    rcases hx : st₀.engine.hashDomain d with _ | x
    · rw [hx] at hdh
      simp at hdh
    · exact StructureSystem.hashDomain_some_charset _ _ hx
  have hh₁ : st₁.engine.hashDomain d = some (dh, st₁.engine) :=
    hashDomain_some_frame st₀.engine st₁.engine d dh hfr₁ hdh
  have hcs₁ : st₁.engine.characterSet ≠ [] := by
    rw [frame_characterSet hfr₁]
    exact hcs₀
  have hget₁ : DomainTable.getCounter d st₁.table st₁.engine
      = some (some c, st₁.engine) := by
    rw [DomainTable.getCounter, hh₁, Option.map_some', hcnt₁]
  have hrules : DomainTable.getRules d st₁.table st₁.engine
      = some (st₁.table.getRulesH dh, st₁.engine) := by
    rw [DomainTable.getRules, hh₁, Option.map_some']
  obtain ⟨e₂, hg₂⟩ := Option.isSome_iff_exists.1
    (ghostNavigate_isSome st₁.engine.fullReset dh (min (c + 1) 65535)
      (by rw [frame_characterSet (fullReset_frame st₁.engine)]; exact hcs₁))
  have hfr₂ : e₂.frame = st₀.engine.frame :=
    ((ghostNavigate_frame hg₂).trans (fullReset_frame st₁.engine)).trans hfr₁
  have hh₂ : e₂.hashDomain d = some (dh, e₂) :=
    hashDomain_some_frame st₀.engine e₂ d dh hfr₂ hdh
  obtain ⟨i, hfi⟩ := getCounterH_found hcnt₁
  have hsetC := setCounterH_isSome_of_found st₁.table dh (min (c + 1) 65535) i hfi
  have hcnt' := getCounterH_setCounterH st₁.table dh (min (c + 1) 65535)
    hdh_nz hsetC
  obtain ⟨e₄, hg₄⟩ := Option.isSome_iff_exists.1
    (ghostNavigate_isSome e₂.fullReset dh c
      (by rw [frame_characterSet (fullReset_frame e₂), frame_characterSet hfr₂]
          exact hcs₀))
  have hfr₄ : e₄.frame = st₀.engine.frame :=
    ((ghostNavigate_frame hg₄).trans (fullReset_frame e₂)).trans hfr₂
  have hh₄ : e₄.hashDomain d = some (dh, e₄) :=
    hashDomain_some_frame st₀.engine e₄ d dh hfr₄ hdh
  refine ⟨dh, ⟨⟨some dh, c, min (c + 1) 65535, true, true⟩, st₁.table, e₂⟩,
    ((st₁.table.getRulesH dh).getD (0, 127)).1,
    ((st₁.table.getRulesH dh).getD (0, 127)).2,
    ⟨⟨some dh, min (c + 1) 65535, min (c + 1) 65535, false, true⟩,
      ⟨st₁.table.slots.set i { st₁.table.slots.getD i DomainSlot.EMPTY with
        counter := min (c + 1) 65535 }⟩, e₂⟩,
    ⟨⟨some dh, c, c, false, true⟩, st₁.table, e₄⟩,
    hdh, ?_, rfl, hcnt₁, ?_, rfl, rfl, hcnt', ?_, ?_, rfl, rfl, rfl, ?_⟩
  · rw [activatePreview, if_neg hd]
    simp only [hget₁, Option.some_bind, Option.getD_some, hrules, hh₁, hg₂,
      Option.map_some']
  · rw [commitIncrement, if_neg hd]
    simp only [DomainTable.setCounter, hh₂, Option.map_some', Option.some_bind,
      hsetC, if_true]
  · rw [getCounterCmd, if_neg hd]
    simp only [DomainTable.getCounter, hh₂, Option.map_some', hcnt']
  · rw [cancelPreview]
    simp only [hg₄, Option.map_some', if_true]
  · rw [getCounterCmd, if_neg hd]
    simp only [DomainTable.getCounter, hh₄, Option.map_some', hcnt₁]

/-- A fresh protocol start state: empty session, empty domain table,
engine `E3`. -/
def ST0 : ProtoState := ⟨SessionState.empty, DomainTable.new, E3⟩

/-- The protocol state after `ACTIVATE("a")` from `ST0`. -/
def ST1 : ProtoState := ((activate [97] ST0).getD (ST0, Response.error "")).1

/-- A domain table whose slot 0 already holds the fingerprint of
domain "a" (under `E3`) at the saturated counter value 65535 — the
value repeated `COMMIT_INCREMENT`s (or a `SET_COUNTER`) drive a slot
to, since every preview saturates at the `u16` ceiling. -/
def T5 : DomainTable :=
  ⟨(List.replicate 512 DomainSlot.EMPTY).set 0 ⟨E3Hash, 65535, 0, 127⟩⟩

/-- A protocol state whose table holds domain "a" at counter 65535. -/
def ST5 : ProtoState := ⟨SessionState.empty, T5, E3⟩

/-- The protocol state after `ACTIVATE("a")` from `ST5`. -/
def ST5act : ProtoState := ((activate [97] ST5).getD (ST5, Response.error "")).1

set_option maxRecDepth 100000 in
unseal Rat.add Rat.sub Rat.mul Rat.inv in
/-- **C5, counterexample** — from state `ST5`, whose domain table holds
domain "a" at the saturated counter 65535, `ACTIVATE("a")` establishes
saved counter `c = 65535`, but `ACTIVATE_PREVIEW("a")` then answers
with active counter 65535, not `c + 1 = 65536`: the preview counter is
the `u16` *saturating* successor of the saved counter. -/
theorem preview_counter_not_successor :
    activate [97] ST5 = some (ST5act, Response.activated 65535 65535 0 127) ∧
    (activatePreview [97] ST5act).map Prod.snd
      = some (Response.preview 65535 65535 0 127) ∧
    (65535 : Nat) ≠ 65535 + 1 :=
  ⟨by rfl, by rfl, by decide⟩

set_option maxRecDepth 100000 in
unseal Rat.add Rat.sub Rat.mul Rat.inv in
/-- Witness for C5: from the concrete start state `ST0`, `ACTIVATE("a")`
establishes saved counter 0, the domain fingerprint is nonzero, and the
amended preview lifecycle follows. -/
theorem preview_lifecycle_witness :
    activate [97] ST0 = some (ST1, Response.activated 0 0 0 127) ∧
    (∃ dh st₂ ml' ct' st₃ st₄,
      (ST0.engine.hashDomain [97]).map Prod.fst = some dh ∧
      activatePreview [97] ST1
        = some (st₂, Response.preview 0 (min (0 + 1) 65535) ml' ct') ∧
      st₂.session = ⟨some dh, 0, min (0 + 1) 65535, true, true⟩ ∧
      st₂.table.getCounterH dh = some 0 ∧
      commitIncrement [97] st₂
        = some (st₃, Response.committed (min (0 + 1) 65535)) ∧
      st₃.session.savedCounter = min (0 + 1) 65535 ∧
      st₃.session.isPreviewMode = false ∧
      st₃.table.getCounterH dh = some (min (0 + 1) 65535) ∧
      getCounterCmd [97] st₃
        = some (st₃, Response.counterResp (some (min (0 + 1) 65535))) ∧
      cancelPreview st₂ = some (st₄, Response.cancelled 0) ∧
      st₄.session.activeCounter = 0 ∧ st₄.session.isPreviewMode = false ∧
      st₄.table = st₂.table ∧
      getCounterCmd [97] st₄ = some (st₄, Response.counterResp (some 0))) := by
  have hact : activate [97] ST0 = some (ST1, Response.activated 0 0 0 127) := by
    rfl
  refine ⟨hact, preview_lifecycle ST0 [97] 0 0 127 ST1 hact ?_⟩
  intro h hh
  have hE : E3.hashDomain [97] = some (E3Hash, E3) := by decide
  rw [show ST0.engine = E3 from rfl, hE] at hh
  simp only [Option.map_some', Option.some.injEq] at hh
  rw [← hh]
  decide
